import Mathlib

/-!
# Blocked Cholesky factorization `magma_zpotrf_native_gpu` and the routine `magma_zgeqrf`

A shallow embedding of `src/zpotrf_native_gpu.cpp` and of `src/zgeqrf.cpp`, the
latter as far as `*info` and `work[0]` go.

* The device buffer `dA` and the pinned host buffer `work` are maps from a
  linear offset to a scalar; `dAoff` is the exact position of an entry.
* Every call the function makes is appended to a trace of `Op`s, in issue
  order, and its effect on the buffers is applied in issue order.
* The scalar type is a parameter together with an `Arith` record (conjugate,
  real part, sign test, square root), so that the same definitions run on
  rationals and are reasoned about over the complex numbers.
* Loop counters and sizes of the Cholesky routine are naturals. Where the
  width of `magma_int_t` matters, expressions are evaluated with
  `magma_int_t`, the 32-bit wrap-around: the offset the macro `dA(i_, j_)`
  computes is `dA_macro`, and `magma_zgeqrf` evaluates its integer
  expressions in `magma_int_t`.
-/

namespace Magma

open Finset

/-! ## Data model -/

/-- Triangle selector of the call, the enumeration behind `magma_uplo_t`. -/
inductive magma_uplo_t
  | MagmaUpper
  | MagmaLower
  | MagmaFull
  deriving DecidableEq, Repr

/-- Exact scalar arithmetic in which the numeric kernels are evaluated: complex
conjugate, real part (as a scalar), the test `x <= 0` on a real scalar, and the
square root of a real scalar. -/
structure Arith (K : Type) where
  conj : K → K
  re : K → K
  nonpos : K → Bool
  sqrt : K → K

/-- Sub-block `dA(row, col)` of size `rows x cols` handed to a transfer or a
kernel. -/
structure View where
  row : Nat
  col : Nat
  rows : Nat
  cols : Nat
  deriving DecidableEq, Repr

/-- Operations issued by the two routines, as they appear in the source. The
index `q` is the position in `queues[2]`. -/
inductive Op
  | xerbla (arg : Int)
  | zmalloc_pinned (size : Nat) (ok : Bool)
  | imalloc (ok : Bool)
  | getdevice
  | queue_create (q : Nat)
  | event_create
  | setvector (q : Nat)
  | printf_not_supported
  | zgetmatrix_async (v : View) (q : Nat)
  | queue_sync (q : Nat)
  | lapackf77_zpotrf (jb : Nat)
  | zsetmatrix_async (v : View) (q : Nat)
  | zpotrf_rectile_native (v : View) (gbstep : Nat) (q : Nat)
  | ztrsm (a b : View) (q : Nat)
  | event_record (q : Nat)
  | queue_wait_event (q : Nat)
  | zherk (a c : View) (q : Nat)
  | zgemm (a b c : View) (q : Nat)
  | getvector (q : Nat)
  | event_destroy
  | queue_destroy (q : Nat)
  | free_pinned
  | free
  deriving DecidableEq, Repr

/-- Machine state threaded through the block loop: device matrix buffer, host
staging buffer, host status `*info`, device status cell `dinfo`, and the trace
of issued operations. -/
structure State (K : Type) where
  dA : Nat → K
  work : Nat → K
  info : Int
  dinfo : Int
  trace : List Op

/-- Outcome of the allocations and the two error codes of `magma_types.h`,
which is not among the sources; they are inputs of the model. -/
structure Env where
  host_alloc_ok : Bool
  dev_alloc_ok : Bool
  MAGMA_ERR_HOST_ALLOC : Int
  MAGMA_ERR_DEVICE_ALLOC : Int

/-- What a call leaves behind: the returned value (equal to `*info`), the
device buffer and the trace. -/
structure Result (K : Type) where
  ret : Int
  dA : Nat → K
  trace : List Op

/-! ## Addressing -/

/-- Position `i_ + j_*ldda` of entry `(i_, j_)` in the column-major buffer: the
exact value of the macro `dA(i_, j_)`; `dA_macro` is its value in machine
arithmetic. -/
def dAoff (ldda i j : Nat) : Nat := i + j * ldda

/-- Value of an expression of type `magma_int_t`. The type is declared outside
the sources; it is a 32-bit `int` in the default build, which lines 138 and
211 of `zpotrf_native_gpu.cpp` rely on (`sizeof(int)` for `*info`). Arithmetic
that leaves the range wraps around in two's complement. -/
def magma_int_t (x : Int) : Int := (x + 2 ^ 31) % 2 ^ 32 - 2 ^ 31

/-- Offset of `dA(i_, j_)` from the start of the matrix as the macro of line 88
computes it, `dA + (i_) + (j_)*ldda`: the product is formed in `magma_int_t`
and then added to the pointer. -/
def dA_macro (ldda i j : Int) : Int := i + magma_int_t (j * ldda)

/-- Column-major read of entry `(r, c)` of the block at offset `off` with
leading dimension `ld`. -/
def readBlock {K : Type} (buf : Nat → K) (off ld : Nat) : Nat → Nat → K :=
  fun r c => buf (off + r + c * ld)

/-- Column-major write of the `m x k` block `v` at offset `off` with leading
dimension `ld`; every other cell keeps its content. -/
def writeBlock {K : Type} (buf : Nat → K) (off ld m k : Nat) (v : Nat → Nat → K) :
    Nat → K :=
  fun a =>
    if off ≤ a ∧ (a - off) % ld < m ∧ (a - off) / ld < k then
      v ((a - off) % ld) ((a - off) / ld)
    else buf a

/-! ## Reference results of the numeric kernels

The kernels and transfers the routine calls (LAPACK, BLAS on the device, the
device panel routine, the copy routines) are not among the sources. Each is
modelled by the result its interface documents, in exact arithmetic. -/

section Kernels

variable {K : Type} [Field K]

/-- Modelled from the spec: the small-block factorization is an external
kernel. Column loop of the unblocked lower Cholesky factorization (the
reference algorithm `zpotf2`): `cnt` columns remain, `c` is the current one.
Returns the matrix and the status: 0, or the local 1-based index of the first
non-positive pivot, at which the loop returns at once. -/
def potf2_loop (ar : Arith K) (n : Nat) :
    Nat → Nat → (Nat → Nat → K) → (Nat → Nat → K) × Nat
  | 0, _, a => (a, 0)
  | cnt + 1, c, a =>
    let ajj := ar.re (a c c) - ar.re (∑ l in range c, a c l * ar.conj (a c l))
    if ar.nonpos ajj then
      (fun r k => if r = c ∧ k = c then ajj else a r k, c + 1)
    else
      let d := ar.sqrt ajj
      potf2_loop ar n cnt (c + 1)
        (fun r k =>
          if k = c then
            if r = c then d
            else if c < r ∧ r < n then
              (a r c - ∑ l in range c, a r l * ar.conj (a c l)) / d
            else a r k
          else a r k)

/-- Modelled from the spec: reference result of the small-block factorization
of order `n`, lower triangle, with its status. -/
def potf2 (ar : Arith K) (n : Nat) (a : Nat → Nat → K) : (Nat → Nat → K) × Nat :=
  potf2_loop ar n n 0 a

/-- Modelled from the spec: the triangular solve is an external kernel. Column
loop of the solve `X * A^H = B` with `A` lower triangular, non-unit diagonal
(side right, conjugate transpose). -/
def trsm_loop (ar : Arith K) (m : Nat) (a : Nat → Nat → K) :
    Nat → Nat → (Nat → Nat → K) → (Nat → Nat → K)
  | 0, _, x => x
  | cnt + 1, c, x =>
    trsm_loop ar m a cnt (c + 1)
      (fun r k =>
        if k = c ∧ r < m then
          (x r c - ∑ l in range c, x r l * ar.conj (a c l)) / ar.conj (a c c)
        else x r k)

/-- Modelled from the spec: reference result of
`ztrsm(Right, Lower, ConjTrans, NonUnit, m, n, alpha, A, B)`, the `m x n` block
`B` overwritten by `alpha * B * (A^H)^-1`. -/
def ztrsm_ref (ar : Arith K) (m n : Nat) (alpha : K) (a b : Nat → Nat → K) :
    Nat → Nat → K :=
  trsm_loop ar m a n 0 (fun r c => alpha * b r c)

/-- Modelled from the spec: the rank-k update is an external kernel. Reference
result of `zherk(Lower, NoTrans, n, k, alpha, A, beta, C)`: the lower triangle
of `C` becomes `alpha*A*A^H + beta*C`; diagonal entries are taken real, as the
reference kernel does. -/
def zherk_ref (ar : Arith K) (n k : Nat) (alpha : K) (a : Nat → Nat → K) (beta : K)
    (c : Nat → Nat → K) : Nat → Nat → K :=
  fun r cc =>
    if cc < r ∧ r < n then
      alpha * (∑ l in range k, a r l * ar.conj (a cc l)) + beta * c r cc
    else if cc = r ∧ r < n then
      alpha * ar.re (∑ l in range k, a r l * ar.conj (a r l)) + beta * ar.re (c r r)
    else c r cc

/-- Modelled from the spec: the multiply is an external kernel. Reference
result of `zgemm(NoTrans, ConjTrans, m, n, k, alpha, A, B, beta, C)`: `C`
becomes `alpha*A*B^H + beta*C`. -/
def zgemm_ref (ar : Arith K) (k : Nat) (alpha : K) (a b : Nat → Nat → K) (beta : K)
    (c : Nat → Nat → K) : Nat → Nat → K :=
  fun r cc => alpha * (∑ l in range k, a r l * ar.conj (b cc l)) + beta * c r cc

/-! ## Transfers and kernels on the buffers -/

/-- Modelled from the spec: the copy routine is not among the sources. Effect
of `magma_zgetmatrix_async(m, n, dA_src, ldda, hB_dst, ldb, queue)`:
the `m x n` device block at offset `off` is copied to the host buffer. -/
def magma_zgetmatrix_async (m n : Nat) (dA : Nat → K) (off ldda : Nat) (hB : Nat → K)
    (ldb : Nat) : Nat → K :=
  writeBlock hB 0 ldb m n (readBlock dA off ldda)

/-- Modelled from the spec: the copy routine is not among the sources. Effect
of `magma_zsetmatrix_async(m, n, hA_src, lda, dB_dst, lddb, queue)`:
the `m x n` host block is copied to the device block at offset `off`. -/
def magma_zsetmatrix_async (m n : Nat) (hA : Nat → K) (lda : Nat) (dB : Nat → K)
    (off lddb : Nat) : Nat → K :=
  writeBlock dB off lddb m n (readBlock hA 0 lda)

/-- Modelled from the spec: effect of `lapackf77_zpotrf("Lower", &n, a, &lda, info)`
on the host buffer, the factored block and the status. -/
def lapackf77_zpotrf (ar : Arith K) (n : Nat) (a : Nat → K) (lda : Nat) : (Nat → K) × Nat :=
  (writeBlock a 0 lda n n (potf2 ar n (readBlock a 0 lda)).1,
    (potf2 ar n (readBlock a 0 lda)).2)

/-- Modelled from the spec: effect of `magma_ztrsm(Right, Lower, ConjTrans, NonUnit,
m, n, alpha, dA(..), ldda, dB(..), lddb, queue)` with both blocks in the buffer
`dA`. -/
def magma_ztrsm (ar : Arith K) (m n : Nat) (alpha : K) (dA : Nat → K) (offA ldda : Nat)
    (offB lddb : Nat) : Nat → K :=
  writeBlock dA offB lddb m n
    (ztrsm_ref ar m n alpha (readBlock dA offA ldda) (readBlock dA offB lddb))

/-- Modelled from the spec: effect of `magma_zherk(Lower, NoTrans, n, k, alpha,
dA(..), ldda, beta, dC(..), lddc, queue)` with both blocks in the buffer `dA`. -/
def magma_zherk (ar : Arith K) (n k : Nat) (alpha : K) (dA : Nat → K) (offA ldda : Nat)
    (beta : K) (offC lddc : Nat) : Nat → K :=
  writeBlock dA offC lddc n n
    (zherk_ref ar n k alpha (readBlock dA offA ldda) beta (readBlock dA offC lddc))

/-- Modelled from the spec: effect of `magma_zgemm(NoTrans, ConjTrans, m, n, k,
alpha, dA(..), ldda, dB(..), lddb, beta, dC(..), lddc, queue)` with the three
blocks in the buffer `dA`. -/
def magma_zgemm (ar : Arith K) (m n k : Nat) (alpha : K) (dA : Nat → K) (offA ldda : Nat)
    (offB lddb : Nat) (beta : K) (offC lddc : Nat) : Nat → K :=
  writeBlock dA offC lddc m n
    (zgemm_ref ar k alpha (readBlock dA offA ldda) (readBlock dA offB lddb) beta
      (readBlock dA offC lddc))

end Kernels

/-! ## The routine `magma_zpotrf_native_gpu` -/

section Routine

variable {K : Type} [Field K]

/-- Append one issued operation to the trace. -/
def emit (ops : List Op) (s : State K) : State K :=
  { s with trace := s.trace ++ ops }

/-- Host-assisted panel (lines 154-162): copy the `jb x jb` diagonal block to
`work` with leading dimension `jb`, drain queue 0, factor on the host, copy
the block back. The host status lands in `*info`. -/
def panel_hybrid (ar : Arith K) (ldda j jb : Nat) (s : State K) : State K :=
  let work1 := magma_zgetmatrix_async jb jb s.dA (dAoff ldda j j) ldda s.work jb
  -- factor it on CPU, and test for positive definiteness
  let r := lapackf77_zpotrf ar jb work1 jb
  { dA := magma_zsetmatrix_async jb jb r.1 jb s.dA (dAoff ldda j j) ldda
    work := r.1
    info := (r.2 : Int)
    dinfo := s.dinfo
    trace := s.trace ++
      [Op.zgetmatrix_async ⟨j, j, jb, jb⟩ 0, Op.queue_sync 0, Op.lapackf77_zpotrf jb,
       Op.zsetmatrix_async ⟨j, j, jb, jb⟩ 0] }

/-- Modelled from the spec: `magma_zpotrf_rectile_native` is not among the
sources. The spec has it factorize the block in place on the device and write
the status to the device-resident status cell; the call passes the frontier
offset `j` as the global step. Here it computes the reference factor of the
block and, on a failure with local index `i`, stores `i + gbstep` in the still
clear status cell. The tile size `recnb` does not change the exact result. -/
def zpotrf_rectile_native (ar : Arith K) (jb _recnb : Nat) (off ldda gbstep : Nat)
    (s : State K) : State K :=
  let r := potf2 ar jb (readBlock s.dA off ldda)
  { s with
    dA := writeBlock s.dA off ldda jb jb r.1
    dinfo := if r.2 ≠ 0 ∧ s.dinfo = 0 then (r.2 : Int) + (gbstep : Int) else s.dinfo }

/-- Device-native panel (line 173). -/
def panel_native (ar : Arith K) (ldda j jb : Nat) (s : State K) : State K :=
  emit [Op.zpotrf_rectile_native ⟨j, j, jb, jb⟩ j 0]
    (zpotrf_rectile_native ar jb 128 (dAoff ldda j j) ldda j s)

/-- Trailing update of one iteration (lines 176-208). -/
def trailing_update (ar : Arith K) (n ldda nb j jb : Nat) (s : State K) : State K :=
  let nextj := j + jb
  if nextj < n then
    -- apply diagonal block to block column below diagonal
    let dA1 := magma_ztrsm ar (n - nextj) jb 1 s.dA (dAoff ldda j j) ldda
      (dAoff ldda (j + jb) j) ldda
    -- update the trailing matrix (split into two portion, next tile, and remaining
    let nextjb := min nb (n - nextj)
    let dA2 := magma_zherk ar nextjb jb (-1) dA1 (dAoff ldda (j + jb) j) ldda 1
      (dAoff ldda (j + jb) (j + jb)) ldda
    let s2 : State K :=
      { s with
        dA := dA2
        trace := s.trace ++
          [Op.ztrsm ⟨j, j, jb, jb⟩ ⟨j + jb, j, n - nextj, jb⟩ 0, Op.event_record 0,
           Op.zherk ⟨j + jb, j, nextjb, jb⟩ ⟨j + jb, j + jb, nextjb, nextjb⟩ 0] }
    if nextj + nextjb < n then
      -- continue the update of the panel lower portion
      let dA3 := magma_zgemm ar (n - nextj - nextjb) nextjb jb (-1) dA2
        (dAoff ldda (nextj + nextjb) j) ldda (dAoff ldda nextj j) ldda 1
        (dAoff ldda (nextj + nextjb) nextj) ldda
      -- update of the lower portion of the trailing matrix after the next panel column
      let dA4 := magma_zherk ar (n - nextj - nextjb) jb (-1) dA3
        (dAoff ldda (nextj + nextjb) j) ldda 1
        (dAoff ldda (nextj + nextjb) (nextj + nextjb)) ldda
      { s2 with
        dA := dA4
        trace := s2.trace ++
          [Op.queue_wait_event 1,
           Op.zgemm ⟨nextj + nextjb, j, n - nextj - nextjb, jb⟩ ⟨nextj, j, nextjb, jb⟩
             ⟨nextj + nextjb, nextj, n - nextj - nextjb, nextjb⟩ 1,
           Op.zherk ⟨nextj + nextjb, j, n - nextj - nextjb, jb⟩
             ⟨nextj + nextjb, nextj + nextjb, n - nextj - nextjb, n - nextj - nextjb⟩ 1] }
    else s2
  else s

/-- The block loop `for (j = 0; j < n; j += nb)` (lines 148-209). The first
argument bounds the number of iterations; `block_loop_fuel` shows that `n - j`
is enough whenever `nb >= 1`. In the host-assisted variant a non-zero host
status adds `j` to `*info` and leaves the loop. -/
def block_loop (ar : Arith K) (hybrid : Int) (n ldda nb : Nat) :
    Nat → Nat → State K → State K
  | 0, _, s => s
  | fuel + 1, j, s =>
    if j < n then
      let jb := min nb (n - j)
      if hybrid = 1 then
        let s1 := panel_hybrid ar ldda j jb s
        if s1.info ≠ 0 then { s1 with info := s1.info + (j : Int) }
        else block_loop ar hybrid n ldda nb fuel (j + nb) (trailing_update ar n ldda nb j jb s1)
      else
        block_loop ar hybrid n ldda nb fuel (j + nb)
          (trailing_update ar n ldda nb j jb (panel_native ar ldda j jb s))
    else s

/-- Operations after the label `cleanup` (lines 214-221). -/
def cleanup_ops : List Op :=
  [Op.queue_sync 0, Op.queue_sync 1, Op.event_destroy, Op.queue_destroy 0,
   Op.queue_destroy 1, Op.free_pinned, Op.free]

/-- The state in which the block loop is entered (lines 119-138): both
allocations done, queues and event created, `*info = 0` copied to `dinfo`.
The staging buffer is filled by the copy from the device before it is read;
its content before that is taken to be 0. -/
def loop_entry (dA : Nat → K) (nb : Nat) : State K :=
  { dA := dA
    work := fun _ => 0
    info := 0
    dinfo := 0
    trace := [Op.zmalloc_pinned (nb * nb) true, Op.imalloc true, Op.getdevice,
      Op.queue_create 0, Op.queue_create 1, Op.event_create, Op.setvector 0] }

/-- The state at the final status fetch (lines 141-210), for block size `nb`. -/
def loop_exit (ar : Arith K) (hybrid : Int) (uplo : magma_uplo_t) (n ldda nb : Nat)
    (dA : Nat → K) : State K :=
  if uplo = magma_uplo_t.MagmaUpper then
    emit [Op.printf_not_supported] (loop_entry dA nb)
  else
    block_loop ar hybrid n ldda nb n 0 (loop_entry dA nb)

/-- The routine `magma_zpotrf_native_gpu(hybrid, uplo, n, dA, ldda, info)`. -/
def magma_zpotrf_native_gpu (ar : Arith K) (env : Env) (hybrid : Int)
    (uplo : magma_uplo_t) (n : Int) (dA : Nat → K) (ldda : Int) : Result K :=
  let info : Int :=
    if uplo ≠ magma_uplo_t.MagmaLower then -1
    else if n < 0 then -2
    else if ldda < max 1 n then -4
    else 0
  if info ≠ 0 then
    { ret := info, dA := dA, trace := [Op.xerbla (-info)] }
  else
    let nb : Nat := 1024
    if env.host_alloc_ok = false then
      { ret := env.MAGMA_ERR_HOST_ALLOC, dA := dA
        trace := Op.zmalloc_pinned (nb * nb) false :: cleanup_ops }
    else if env.dev_alloc_ok = false then
      { ret := env.MAGMA_ERR_DEVICE_ALLOC, dA := dA
        trace := Op.zmalloc_pinned (nb * nb) true :: Op.imalloc false :: cleanup_ops }
    else
      let s := loop_exit ar hybrid uplo n.toNat ldda.toNat nb dA
      -- magma_getvector overwrites *info with the content of dinfo
      { ret := s.dinfo, dA := s.dA, trace := s.trace ++ Op.getvector 0 :: cleanup_ops }

end Routine

/-! ## Rational test arithmetic -/

/-- Largest `k <= bound` with `k*k <= n`. -/
def natSqrtAux (n : Nat) : Nat → Nat
  | 0 => 0
  | k + 1 => if (k + 1) * (k + 1) ≤ n then k + 1 else natSqrtAux n k

/-- Rational arithmetic for running the model on concrete inputs: trivial
conjugate and real part, and a square root that is exact on squares of
rationals. -/
def ratArith : Arith ℚ where
  conj := fun x => x
  re := fun x => x
  nonpos := fun x => decide (x ≤ 0)
  sqrt := fun x => (natSqrtAux x.num.toNat x.num.toNat : ℚ) / (natSqrtAux x.den x.den : ℚ)

/-- Environment in which both allocations succeed, with the error codes of
MAGMA 2.0. -/
def envOk : Env := ⟨true, true, -112, -113⟩

/-- Column-major buffer holding the given entries, zero elsewhere. -/
def bufOfList (l : List ℚ) : Nat → ℚ := fun a => l.getD a 0

/-! ## Vocabulary for statements about the trace -/

/-- Operations one panel factorization issues at offset `j`, by variant. -/
def panel_ops (hybrid : Int) (j jb : Nat) : List Op :=
  if hybrid = 1 then
    [Op.zgetmatrix_async ⟨j, j, jb, jb⟩ 0, Op.queue_sync 0, Op.lapackf77_zpotrf jb,
     Op.zsetmatrix_async ⟨j, j, jb, jb⟩ 0]
  else [Op.zpotrf_rectile_native ⟨j, j, jb, jb⟩ j 0]

/-- Operations one trailing update issues after the panel at offset `j`. -/
def trailing_ops (n nb j jb : Nat) : List Op :=
  if j + jb < n then
    [Op.ztrsm ⟨j, j, jb, jb⟩ ⟨j + jb, j, n - (j + jb), jb⟩ 0, Op.event_record 0,
     Op.zherk ⟨j + jb, j, min nb (n - (j + jb)), jb⟩
       ⟨j + jb, j + jb, min nb (n - (j + jb)), min nb (n - (j + jb))⟩ 0] ++
    (if j + jb + min nb (n - (j + jb)) < n then
      [Op.queue_wait_event 1,
       Op.zgemm
         ⟨j + jb + min nb (n - (j + jb)), j, n - (j + jb) - min nb (n - (j + jb)), jb⟩
         ⟨j + jb, j, min nb (n - (j + jb)), jb⟩
         ⟨j + jb + min nb (n - (j + jb)), j + jb, n - (j + jb) - min nb (n - (j + jb)),
           min nb (n - (j + jb))⟩ 1,
       Op.zherk
         ⟨j + jb + min nb (n - (j + jb)), j, n - (j + jb) - min nb (n - (j + jb)), jb⟩
         ⟨j + jb + min nb (n - (j + jb)), j + jb + min nb (n - (j + jb)),
           n - (j + jb) - min nb (n - (j + jb)), n - (j + jb) - min nb (n - (j + jb))⟩ 1]
    else [])
  else []

/-- Device sub-blocks an operation addresses. -/
def Op.views : Op → List View
  | Op.zgetmatrix_async v _ => [v]
  | Op.zsetmatrix_async v _ => [v]
  | Op.zpotrf_rectile_native v _ _ => [v]
  | Op.ztrsm a b _ => [a, b]
  | Op.zherk a c _ => [a, c]
  | Op.zgemm a b c _ => [a, b, c]
  | _ => []

/-- Order `jb` of the staging copy an operation addresses in `work`, as a
`jb x jb` block with leading dimension `jb`. -/
def Op.staging : Op → Option Nat
  | Op.zgetmatrix_async v _ => some v.rows
  | Op.lapackf77_zpotrf jb => some jb
  | Op.zsetmatrix_async v _ => some v.rows
  | _ => none

/-- The view lies inside the `n x n` matrix. -/
def View.inside (n : Nat) (v : View) : Prop :=
  v.row + v.rows ≤ n ∧ v.col + v.cols ≤ n

/-- Offset and size `(j, jb)` of the panel an operation starts, if it starts
one: the copy to the host in the host-assisted variant, the device
factorization in the native one. -/
def Op.panel : Op → Option (Nat × Nat)
  | Op.zgetmatrix_async v _ => some (v.row, v.rows)
  | Op.zpotrf_rectile_native v _ _ => some (v.row, v.rows)
  | _ => none

/-- Trailing-update kernels: triangular solve, rank-k update, multiply. -/
def Op.is_trailing : Op → Bool
  | Op.ztrsm _ _ _ => true
  | Op.zherk _ _ _ => true
  | Op.zgemm _ _ _ _ => true
  | _ => false

/-- The execution queue an operation is issued on, for transfers, kernels,
event records and waits, and synchronizations; `none` for everything else. -/
def Op.queue : Op → Option Nat
  | Op.setvector q => some q
  | Op.getvector q => some q
  | Op.zgetmatrix_async _ q => some q
  | Op.zsetmatrix_async _ q => some q
  | Op.zpotrf_rectile_native _ _ q => some q
  | Op.ztrsm _ _ q => some q
  | Op.zherk _ _ q => some q
  | Op.zgemm _ _ _ q => some q
  | Op.event_record q => some q
  | Op.queue_wait_event q => some q
  | Op.queue_sync q => some q
  | _ => none

/-- Operations issued on an execution queue. -/
def Op.on_queue (op : Op) : Bool := op.queue.isSome

/-- Operations that write the device status cell `dinfo`. -/
def Op.writes_status : Op → Bool
  | Op.setvector _ => true
  | Op.zpotrf_rectile_native _ _ _ => true
  | _ => false

/-- The loop of the specification: `j` runs from 0 to `n` in steps of
`min(nb, n-j)`; the list of the `(j, jb)` it visits. -/
def spec_panels (n nb : Nat) : Nat → Nat → List (Nat × Nat)
  | 0, _ => []
  | fuel + 1, j =>
    if j < n then (j, min nb (n - j)) :: spec_panels n nb fuel (j + min nb (n - j))
    else []

/-- All operations the loop issues from offset `j` on when it is never left
early: panel, then trailing update, for every offset. -/
def loop_ops (hybrid : Int) (n nb : Nat) : Nat → Nat → List Op
  | 0, _ => []
  | fuel + 1, j =>
    if j < n then
      panel_ops hybrid j (min nb (n - j)) ++ trailing_ops n nb j (min nb (n - j)) ++
        loop_ops hybrid n nb fuel (j + nb)
    else []

/-- The panel factorization issued at offset `j` from state `s` reports a
non-zero status: the host status in the host-assisted variant, the status of
the device factorization of the block in the native one. -/
def panel_fails {K : Type} [Field K] (ar : Arith K) (hybrid : Int) (ldda j jb : Nat)
    (s : State K) : Prop :=
  if hybrid = 1 then (panel_hybrid ar ldda j jb s).info ≠ 0
  else (potf2 ar jb (readBlock s.dA (dAoff ldda j j) ldda)).2 ≠ 0

/-- The loop stops at a failing panel: whenever the panel at an offset `j < n`
reports a failure, the loop issues the operations of that panel and nothing
after them. -/
def stops_on_failure {K : Type} [Field K] (ar : Arith K) (hybrid : Int) (n ldda nb : Nat) :
    Prop :=
  ∀ (fuel j : Nat) (s : State K), j < n →
    panel_fails ar hybrid ldda j (min nb (n - j)) s →
    (block_loop ar hybrid n ldda nb (fuel + 1) j s).trace =
      s.trace ++ panel_ops hybrid j (min nb (n - j))

/-- The status fetch comes only after both queues were synchronized: whatever
precedes a `getvector` in the trace contains a `queue_sync` of queue 0 and one
of queue 1. -/
def fetch_after_sync (tr : List Op) : Prop :=
  ∀ pre post q, tr = pre ++ Op.getvector q :: post →
    Op.queue_sync 0 ∈ pre ∧ Op.queue_sync 1 ∈ pre

/-- Test input: the matrix whose only non-zero entry is `A(0,0) = -1`. -/
def negCorner : Nat → ℚ := bufOfList [-1]

/-! ## The routine `magma_zgeqrf` -/

/-- What `magma_zgeqrf` takes from outside the sources, as far as `*info` and
`work[0]` go. `W` is the type of `work[0]`, a double-precision complex number.
Each routine that is handed `work` maps the content of `work[0]` before the
call to the status it stores in `*info` and the content after the call; the
dependence on the matrix is part of the map, which is indexed by the offset
`i` of the call. -/
structure GeqrfEnv (W : Type) where
  /-- `MAGMA_Z_MAKE((double) v, 0)` for an integer `v`; `MAGMA_Z_ONE` is the
  value for 1. -/
  MAGMA_Z_MAKE : Int → W
  /-- Block size for a matrix with `min(m, n)` as given. -/
  magma_get_zgeqrf_nb : Int → Int
  /-- Number of devices. -/
  magma_num_gpus : Int
  /-- The multi-device routine, called with `(num_gpus, m, n, lda, lwork)`. -/
  magma_zgeqrf4 : Int → Int → Int → Int → Int → W → Int × W
  /-- The device allocation of line 143 succeeds. -/
  zmalloc_ok : Bool
  /-- The out-of-core routine, called with `(m, n, lda, lwork)`. -/
  magma_zgeqrf_ooc : Int → Int → Int → Int → W → Int × W
  /-- The host factorization of the panel at offset `i`, called with
  `(rows, ib, lda, lwork)` and `work` as its workspace. -/
  lapackf77_zgeqrf : Int → Int → Int → Int → Int → W → Int × W
  /-- The triangular factor of the block reflector of the panel at offset `i`,
  called with `(rows, ib, lda)`; it is formed in `work` with leading dimension
  `ib`. -/
  lapackf77_zlarft : Int → Int → Int → Int → W → W

/-- Status `*info` and content of `work[0]`. -/
structure GeqrfState (W : Type) where
  info : Int
  work0 : W
  deriving DecidableEq, Repr

/-- The blocked loop of lines 163-220, `for (i = 0; i < k-nb; i += nb)`, as far
as `*info` and `work[0]` go: the host factorization of the panel and the
forming of its triangular factor use `work`; `zpanel_to_q` and `zq_to_panel`
are given `work + ib*ib` with `ib = nb > 1`, the transfers read `work` and
`magma_zlarfb_gpu` is not given it. Returns the value of `i` after the loop
and the state; `zgeqrf_blocked_exit` shows that `k` steps are enough. -/
def zgeqrf_blocked {W : Type} (x : GeqrfEnv W) (m k nb lda lwork : Int) :
    Nat → Int → GeqrfState W → Int × GeqrfState W
  | 0, i, s => (i, s)
  | fuel + 1, i, s =>
    if i < magma_int_t (k - nb) then
      let ib := min (magma_int_t (k - i)) nb
      let rows := magma_int_t (m - i)
      let r := x.lapackf77_zgeqrf i rows ib lda lwork s.work0
      let w := x.lapackf77_zlarft i rows ib lda r.2
      zgeqrf_blocked x m k nb lda lwork fuel (magma_int_t (i + nb)) ⟨r.1, w⟩
    else (i, s)

/-- The routine `magma_zgeqrf(m, n, A, lda, tau, work, lwork, info)`, as far as
`*info` and `work[0]` on exit go. Integer expressions are evaluated in
`magma_int_t`; `(double) lwkopt` is exact. `lddwork`, `ldda` and the size of
the device allocation (lines 133-143) only reach routines outside the sources
and are left out. -/
def magma_zgeqrf {W : Type} (x : GeqrfEnv W) (m n lda lwork : Int) : GeqrfState W :=
  let nb := magma_int_t (x.magma_get_zgeqrf_nb (min m n))
  let lwkopt := max (magma_int_t (n * nb)) (magma_int_t (magma_int_t (2 * nb) * nb))
  let work0 := x.MAGMA_Z_MAKE lwkopt
  let lquery : Bool := decide (lwork = -1)
  let info : Int :=
    if m < 0 then -1
    else if n < 0 then -2
    else if lda < max 1 m then -4
    else if lwork < max 1 lwkopt ∧ lquery = false then -7
    else 0
  if info ≠ 0 then ⟨info, work0⟩
  else if lquery then ⟨info, work0⟩
  else
    let k := min m n
    if k = 0 then ⟨info, x.MAGMA_Z_MAKE 1⟩
    else if x.magma_num_gpus > 1 then
      let r := x.magma_zgeqrf4 x.magma_num_gpus m n lda lwork work0
      ⟨r.1, r.2⟩
    else if x.zmalloc_ok = false then
      let r := x.magma_zgeqrf_ooc m n lda lwork work0
      ⟨r.1, r.2⟩
    else
      let p : Int × GeqrfState W :=
        if nb > 1 ∧ nb < k then zgeqrf_blocked x m k nb lda lwork k.toNat 0 ⟨info, work0⟩
        else (0, ⟨info, work0⟩)
      if p.1 < k then
        let r := x.lapackf77_zgeqrf p.1 (magma_int_t (m - p.1)) (magma_int_t (n - p.1)) lda lwork
          p.2.work0
        ⟨r.1, r.2⟩
      else p.2

/-- Test setting for `magma_zgeqrf`: `work[0]` as an integer, block size 32,
one device, the device allocation succeeds; the host factorization reports
status 0 and leaves `ib*32` in `work[0]`, the forming of the triangular factor
leaves 0 there. -/
def geqrfEnv32 : GeqrfEnv Int where
  MAGMA_Z_MAKE := fun v => v
  magma_get_zgeqrf_nb := fun _ => 32
  magma_num_gpus := 1
  magma_zgeqrf4 := fun _ _ _ _ _ w => (0, w)
  zmalloc_ok := true
  magma_zgeqrf_ooc := fun _ _ _ _ w => (0, w)
  lapackf77_zgeqrf := fun _ _ ib _ _ _ => (0, ib * 32)
  lapackf77_zlarft := fun _ _ _ _ _ => 0

/-! ## Exact complex arithmetic and the factorization invariant -/

/-- Exact arithmetic on the complex numbers: conjugate, real part, sign test
on the real part and real square root. -/
noncomputable def complexArith : Arith ℂ where
  conj := fun z => (starRingEnd ℂ) z
  re := fun z => ((z.re : ℝ) : ℂ)
  nonpos := fun z => decide (z.re ≤ 0)
  sqrt := fun z => ((Real.sqrt z.re : ℝ) : ℂ)

/-- Column-major buffer holding the identity matrix of order `n` with leading
dimension `ldda`. -/
def idBuf {K : Type} [Zero K] [One K] (n ldda : Nat) : Nat → K :=
  fun a => if a % ldda = a / ldda ∧ a / ldda < n then 1 else 0

/-! ## Regions of the matrix and the updates of one iteration -/

/-- Entry `(r, c)` lies in the view. -/
def View.full (v : View) (r c : Nat) : Prop :=
  v.row ≤ r ∧ r < v.row + v.rows ∧ v.col ≤ c ∧ c < v.col + v.cols

instance View.full_decidable (v : View) (r c : Nat) : Decidable (v.full r c) := by
  unfold View.full
  infer_instance

/-- Entry `(r, c)` lies in the lower triangle of the view. -/
def View.lower (v : View) (r c : Nat) : Prop :=
  v.full r c ∧ c - v.col ≤ r - v.row

instance View.lower_decidable (v : View) (r c : Nat) : Decidable (v.lower r c) := by
  unfold View.lower
  infer_instance

/-- Entries of the matrix an operation writes: the block copied back, the
lower triangle of a factored block, the block column a triangular solve
overwrites, the lower triangle `C` of a rank-k update, the block `C` of a
multiply. -/
def Op.writes : Op → Nat → Nat → Prop
  | Op.zsetmatrix_async v _ => v.full
  | Op.zpotrf_rectile_native v _ _ => v.lower
  | Op.ztrsm _ b _ => b.full
  | Op.zherk _ c _ => c.lower
  | Op.zgemm _ _ c _ => c.full
  | _ => fun _ _ => False

instance Op.writes_decidable (op : Op) (r c : Nat) : Decidable (op.writes r c) := by
  cases op <;> simp only [Op.writes] <;> infer_instance

/-- Entries of the matrix an operation reads or writes. -/
def Op.accesses : Op → Nat → Nat → Prop
  | Op.zgetmatrix_async v _ => v.full
  | Op.zsetmatrix_async v _ => v.full
  | Op.zpotrf_rectile_native v _ _ => v.lower
  | Op.ztrsm a b _ => fun r c => a.lower r c ∨ b.full r c
  | Op.zherk a c _ => fun r cc => a.full r cc ∨ c.lower r cc
  | Op.zgemm a b c _ => fun r cc => a.full r cc ∨ b.full r cc ∨ c.full r cc
  | _ => fun _ _ => False

instance Op.accesses_decidable (op : Op) (r c : Nat) : Decidable (op.accesses r c) := by
  cases op <;> simp only [Op.accesses] <;> infer_instance

/-- The correction term of a rank-`jb` update with the panel columns
`j .. j+jb`: `sum_k A(r, j+k) * conj(A(c, j+k))`. -/
def panel_dot {K : Type} [Field K] (ar : Arith K) (ldda j jb : Nat) (buf : Nat → K)
    (r c : Nat) : K :=
  ∑ l in range jb, buf (dAoff ldda r (j + l)) * ar.conj (buf (dAoff ldda c (j + l)))

/-- The corrected entry `(r, c)`, `c <= r`, of the trailing matrix after one
rank-`jb` update of the whole trailing matrix: `A(r,c) - sum_k A(r, j+k) *
conj(A(c, j+k))`; on the diagonal of the Hermitian matrix both terms are taken
real, as `zherk` does. -/
def rank_update_entry {K : Type} [Field K] (ar : Arith K) (ldda j jb : Nat) (buf : Nat → K)
    (r c : Nat) : K :=
  if c < r then buf (dAoff ldda r c) - panel_dot ar ldda j jb buf r c
  else ar.re (buf (dAoff ldda r r)) - ar.re (panel_dot ar ldda j jb buf r r)

/-! ## Ordering of the operations on the two queues -/

/-- Operations the host waits for before it issues the next one: all but the
asynchronous transfers, the kernels and the event record and wait, which only
enqueue work and return. -/
def Op.blocks_host : Op → Bool
  | Op.zgetmatrix_async _ _ => false
  | Op.zsetmatrix_async _ _ => false
  | Op.zpotrf_rectile_native _ _ _ => false
  | Op.ztrsm _ _ _ => false
  | Op.zherk _ _ _ => false
  | Op.zgemm _ _ _ _ => false
  | Op.event_record _ => false
  | Op.queue_wait_event _ => false
  | _ => true

/-- The operation records `trsm_event`. -/
def Op.is_record : Op → Bool
  | Op.event_record _ => true
  | _ => false

/-- The operation makes its queue wait for `trsm_event`. -/
def Op.is_wait : Op → Bool
  | Op.queue_wait_event _ => true
  | _ => false

/-- One step of the order in which the operations at the positions `i < k` of
a trace take effect: both are issued on the same queue, which runs its
operations in issue order; or the event recorded at `i` is waited for at `k`;
or the host waits for the operation at `i` before it issues anything else. -/
def hb_edge (tr : List Op) (i k : Nat) : Bool :=
  match tr[i]?, tr[k]? with
  | some a, some b =>
    decide (i < k) &&
      ((a.queue.isSome && a.queue == b.queue) || (a.is_record && b.is_wait) || a.blocks_host)
  | _, _ => false

/-- Happens-before between positions of a trace: the transitive closure of
`hb_edge`. -/
def happens_before (tr : List Op) : Nat → Nat → Prop :=
  Relation.TransGen (fun i k => hb_edge tr i k = true)

/-- Two operations access a common entry of the matrix and one of them writes
it. -/
def conflict (a b : Op) : Prop :=
  ∃ r c, (a.writes r c ∧ b.accesses r c) ∨ (a.accesses r c ∧ b.writes r c)

/-- Every two conflicting operations issued on different queues are ordered by
happens-before in issue order. -/
def race_free (tr : List Op) : Prop :=
  ∀ i k a b qa qb, i < k → tr[i]? = some a → tr[k]? = some b →
    a.queue = some qa → b.queue = some qb → qa ≠ qb → conflict a b → happens_before tr i k

/-! # Properties -/

/-! ## The trace of the block loop -/

section TraceLemmas

variable {K : Type} [Field K]

theorem panel_hybrid_trace (ar : Arith K) (ldda j jb : Nat) (s : State K) :
    (panel_hybrid ar ldda j jb s).trace = s.trace ++ panel_ops 1 j jb := by
  simp [panel_hybrid, panel_ops]

theorem panel_hybrid_dinfo (ar : Arith K) (ldda j jb : Nat) (s : State K) :
    (panel_hybrid ar ldda j jb s).dinfo = s.dinfo := rfl

theorem panel_hybrid_info_nonneg (ar : Arith K) (ldda j jb : Nat) (s : State K) :
    0 ≤ (panel_hybrid ar ldda j jb s).info := by
  simp [panel_hybrid]

theorem panel_native_trace (ar : Arith K) (hybrid : Int) (h : hybrid ≠ 1) (ldda j jb : Nat)
    (s : State K) :
    (panel_native ar ldda j jb s).trace = s.trace ++ panel_ops hybrid j jb := by
  simp [panel_native, emit, zpotrf_rectile_native, panel_ops, h]

theorem panel_native_info (ar : Arith K) (ldda j jb : Nat) (s : State K) :
    (panel_native ar ldda j jb s).info = s.info := rfl

theorem trailing_update_trace (ar : Arith K) (n ldda nb j jb : Nat) (s : State K) :
    (trailing_update ar n ldda nb j jb s).trace = s.trace ++ trailing_ops n nb j jb := by
  unfold trailing_update trailing_ops
  by_cases h1 : j + jb < n
  · by_cases h2 : j + jb + min nb (n - (j + jb)) < n <;> simp [h1, h2]
  · simp [h1]

theorem trailing_update_info (ar : Arith K) (n ldda nb j jb : Nat) (s : State K) :
    (trailing_update ar n ldda nb j jb s).info = s.info := by
  unfold trailing_update
  by_cases h1 : j + jb < n
  · by_cases h2 : j + jb + min nb (n - (j + jb)) < n <;> simp [h1, h2]
  · simp [h1]

theorem trailing_update_dinfo (ar : Arith K) (n ldda nb j jb : Nat) (s : State K) :
    (trailing_update ar n ldda nb j jb s).dinfo = s.dinfo := by
  unfold trailing_update
  by_cases h1 : j + jb < n
  · by_cases h2 : j + jb + min nb (n - (j + jb)) < n <;> simp [h1, h2]
  · simp [h1]

theorem block_loop_of_ge (ar : Arith K) (hybrid : Int) (n ldda nb fuel j : Nat)
    (s : State K) (h : n ≤ j) : block_loop ar hybrid n ldda nb fuel j s = s := by
  cases fuel with
  | zero => rfl
  | succ fuel => simp [block_loop, Nat.not_lt.mpr h]

theorem block_loop_hybrid_fail (ar : Arith K) (n ldda nb fuel j : Nat) (s : State K)
    (hj : j < n) (hf : (panel_hybrid ar ldda j (min nb (n - j)) s).info ≠ 0) :
    block_loop ar 1 n ldda nb (fuel + 1) j s =
      { panel_hybrid ar ldda j (min nb (n - j)) s with
        info := (panel_hybrid ar ldda j (min nb (n - j)) s).info + (j : Int) } := by
  simp [block_loop, hj, hf]

theorem block_loop_hybrid_ok (ar : Arith K) (n ldda nb fuel j : Nat) (s : State K)
    (hj : j < n) (hf : (panel_hybrid ar ldda j (min nb (n - j)) s).info = 0) :
    block_loop ar 1 n ldda nb (fuel + 1) j s =
      block_loop ar 1 n ldda nb fuel (j + nb)
        (trailing_update ar n ldda nb j (min nb (n - j))
          (panel_hybrid ar ldda j (min nb (n - j)) s)) := by
  simp [block_loop, hj, hf]

theorem block_loop_native (ar : Arith K) (hybrid : Int) (h : hybrid ≠ 1)
    (n ldda nb fuel j : Nat) (s : State K) (hj : j < n) :
    block_loop ar hybrid n ldda nb (fuel + 1) j s =
      block_loop ar hybrid n ldda nb fuel (j + nb)
        (trailing_update ar n ldda nb j (min nb (n - j))
          (panel_native ar ldda j (min nb (n - j)) s)) := by
  simp [block_loop, hj, h]

/-- The iteration bound of `block_loop` is never the reason it stops: with
`nb >= 1` any bound of at least `n - j` gives the same result. -/
theorem block_loop_fuel (ar : Arith K) (hybrid : Int) (n ldda nb : Nat) (hnb : 1 ≤ nb) :
    ∀ (fuel1 fuel2 j : Nat) (s : State K), n - j ≤ fuel1 → n - j ≤ fuel2 →
      block_loop ar hybrid n ldda nb fuel1 j s = block_loop ar hybrid n ldda nb fuel2 j s := by
  intro fuel1
  induction fuel1 with
  | zero =>
    intro fuel2 j s h1 _
    have hj : n ≤ j := by omega
    rw [block_loop_of_ge _ _ _ _ _ _ _ _ hj, block_loop_of_ge _ _ _ _ _ _ _ _ hj]
  | succ f ih =>
    intro fuel2 j s h1 h2
    by_cases hj : n ≤ j
    · rw [block_loop_of_ge _ _ _ _ _ _ _ _ hj, block_loop_of_ge _ _ _ _ _ _ _ _ hj]
    · have hj2 : j < n := by omega
      obtain ⟨g, rfl⟩ : ∃ g, fuel2 = g + 1 := ⟨fuel2 - 1, by omega⟩
      by_cases hy : hybrid = 1
      · subst hy
        by_cases hf : (panel_hybrid ar ldda j (min nb (n - j)) s).info = 0
        · rw [block_loop_hybrid_ok _ _ _ _ _ _ _ hj2 hf, block_loop_hybrid_ok _ _ _ _ _ _ _ hj2 hf]
          exact ih g _ _ (by omega) (by omega)
        · rw [block_loop_hybrid_fail _ _ _ _ _ _ _ hj2 hf,
            block_loop_hybrid_fail _ _ _ _ _ _ _ hj2 hf]
      · rw [block_loop_native _ _ hy _ _ _ _ _ _ hj2, block_loop_native _ _ hy _ _ _ _ _ _ hj2]
        exact ih g _ _ (by omega) (by omega)

/-- The block loop only appends to the trace, and every operation it appends
belongs to the panel or to the trailing update of some offset `k < n` with
`jb = min(nb, n-k)`. -/
theorem block_loop_trace_append (ar : Arith K) (hybrid : Int) (n ldda nb : Nat) :
    ∀ (fuel j : Nat) (s : State K),
      ∃ l, (block_loop ar hybrid n ldda nb fuel j s).trace = s.trace ++ l ∧
        ∀ op ∈ l, ∃ k, k < n ∧
          (op ∈ panel_ops hybrid k (min nb (n - k)) ∨
            op ∈ trailing_ops n nb k (min nb (n - k))) := by
  intro fuel
  induction fuel with
  | zero => intro j s; exact ⟨[], by simp [block_loop], by simp⟩
  | succ f ih =>
    intro j s
    by_cases hj : n ≤ j
    · rw [block_loop_of_ge _ _ _ _ _ _ _ _ hj]; exact ⟨[], by simp, by simp⟩
    · have hj2 : j < n := by omega
      by_cases hy : hybrid = 1
      · subst hy
        by_cases hf : (panel_hybrid ar ldda j (min nb (n - j)) s).info = 0
        · rw [block_loop_hybrid_ok _ _ _ _ _ _ _ hj2 hf]
          obtain ⟨l, hl, hmem⟩ := ih (j + nb) (trailing_update ar n ldda nb j (min nb (n - j))
            (panel_hybrid ar ldda j (min nb (n - j)) s))
          refine ⟨panel_ops 1 j (min nb (n - j)) ++ trailing_ops n nb j (min nb (n - j)) ++ l,
            ?_, ?_⟩
          · rw [hl, trailing_update_trace, panel_hybrid_trace]; simp [List.append_assoc]
          · intro op hop
            rw [List.mem_append, List.mem_append] at hop
            rcases hop with (h | h) | h
            · exact ⟨j, hj2, Or.inl h⟩
            · exact ⟨j, hj2, Or.inr h⟩
            · exact hmem op h
        · rw [block_loop_hybrid_fail _ _ _ _ _ _ _ hj2 hf]
          refine ⟨panel_ops 1 j (min nb (n - j)), ?_, ?_⟩
          · exact panel_hybrid_trace ar ldda j (min nb (n - j)) s
          · intro op hop; exact ⟨j, hj2, Or.inl hop⟩
      · rw [block_loop_native _ _ hy _ _ _ _ _ _ hj2]
        obtain ⟨l, hl, hmem⟩ := ih (j + nb) (trailing_update ar n ldda nb j (min nb (n - j))
          (panel_native ar ldda j (min nb (n - j)) s))
        refine ⟨panel_ops hybrid j (min nb (n - j)) ++ trailing_ops n nb j (min nb (n - j)) ++ l,
          ?_, ?_⟩
        · rw [hl, trailing_update_trace, panel_native_trace _ _ hy]; simp [List.append_assoc]
        · intro op hop
          rw [List.mem_append, List.mem_append] at hop
          rcases hop with (h | h) | h
          · exact ⟨j, hj2, Or.inl h⟩
          · exact ⟨j, hj2, Or.inr h⟩
          · exact hmem op h

theorem native_gpu_invalid (ar : Arith K) (env : Env) (hybrid : Int) (uplo : magma_uplo_t)
    (n ldda : Int) (dA : Nat → K)
    (h : uplo ≠ magma_uplo_t.MagmaLower ∨ n < 0 ∨ ldda < max 1 n) :
    magma_zpotrf_native_gpu ar env hybrid uplo n dA ldda =
      { ret := if uplo ≠ magma_uplo_t.MagmaLower then -1 else if n < 0 then -2 else -4
        dA := dA
        trace := [Op.xerbla
          (-(if uplo ≠ magma_uplo_t.MagmaLower then -1 else if n < 0 then -2 else -4))] } := by
  unfold magma_zpotrf_native_gpu
  by_cases h1 : uplo = magma_uplo_t.MagmaLower
  · by_cases h2 : n < 0
    · simp [h1, h2]
    · have h3 : ldda < max 1 n := by
        rcases h with h | h | h
        · exact absurd h1 h
        · exact absurd h h2
        · exact h
      simp [h1, h2, h3]
  · simp [h1]

theorem native_gpu_host_alloc_fail (ar : Arith K) (env : Env) (hybrid : Int) (n ldda : Int)
    (dA : Nat → K) (hn : 0 ≤ n) (hld : max 1 n ≤ ldda) (ha : env.host_alloc_ok = false) :
    magma_zpotrf_native_gpu ar env hybrid magma_uplo_t.MagmaLower n dA ldda =
      { ret := env.MAGMA_ERR_HOST_ALLOC, dA := dA
        trace := Op.zmalloc_pinned (1024 * 1024) false :: cleanup_ops } := by
  unfold magma_zpotrf_native_gpu
  have h1 : ¬ n < 0 := by omega
  have h2 : ¬ ldda < max 1 n := by omega
  simp [h1, h2, ha]

theorem native_gpu_dev_alloc_fail (ar : Arith K) (env : Env) (hybrid : Int) (n ldda : Int)
    (dA : Nat → K) (hn : 0 ≤ n) (hld : max 1 n ≤ ldda) (ha : env.host_alloc_ok = true)
    (hb : env.dev_alloc_ok = false) :
    magma_zpotrf_native_gpu ar env hybrid magma_uplo_t.MagmaLower n dA ldda =
      { ret := env.MAGMA_ERR_DEVICE_ALLOC, dA := dA
        trace := Op.zmalloc_pinned (1024 * 1024) true :: Op.imalloc false :: cleanup_ops } := by
  unfold magma_zpotrf_native_gpu
  have h1 : ¬ n < 0 := by omega
  have h2 : ¬ ldda < max 1 n := by omega
  simp [h1, h2, ha, hb]

theorem native_gpu_run (ar : Arith K) (env : Env) (hybrid : Int) (n ldda : Int)
    (dA : Nat → K) (hn : 0 ≤ n) (hld : max 1 n ≤ ldda) (ha : env.host_alloc_ok = true)
    (hb : env.dev_alloc_ok = true) :
    magma_zpotrf_native_gpu ar env hybrid magma_uplo_t.MagmaLower n dA ldda =
      { ret := (block_loop ar hybrid n.toNat ldda.toNat 1024 n.toNat 0
          (loop_entry dA 1024)).dinfo
        dA := (block_loop ar hybrid n.toNat ldda.toNat 1024 n.toNat 0 (loop_entry dA 1024)).dA
        trace := (block_loop ar hybrid n.toNat ldda.toNat 1024 n.toNat 0
          (loop_entry dA 1024)).trace ++ Op.getvector 0 :: cleanup_ops } := by
  unfold magma_zpotrf_native_gpu
  have h1 : ¬ n < 0 := by omega
  have h2 : ¬ ldda < max 1 n := by omega
  simp [h1, h2, ha, hb, loop_exit]

/-- In the host-assisted variant nothing in the loop writes the device status
cell. -/
theorem block_loop_hybrid_dinfo (ar : Arith K) (n ldda nb : Nat) :
    ∀ (fuel j : Nat) (s : State K), (block_loop ar 1 n ldda nb fuel j s).dinfo = s.dinfo := by
  intro fuel
  induction fuel with
  | zero => intro j s; rfl
  | succ f ih =>
    intro j s
    by_cases hj : n ≤ j
    · rw [block_loop_of_ge _ _ _ _ _ _ _ _ hj]
    · have hj2 : j < n := by omega
      by_cases hf : (panel_hybrid ar ldda j (min nb (n - j)) s).info = 0
      · rw [block_loop_hybrid_ok _ _ _ _ _ _ _ hj2 hf, ih, trailing_update_dinfo,
          panel_hybrid_dinfo]
      · rw [block_loop_hybrid_fail _ _ _ _ _ _ _ hj2 hf]; rfl

end TraceLemmas

/-! ## The sequence of panels -/

section Panels

variable {K : Type} [Field K]

theorem panel_ops_panel (hybrid : Int) (j jb : Nat) :
    (panel_ops hybrid j jb).filterMap Op.panel = [(j, jb)] := by
  by_cases h : hybrid = 1 <;> simp [panel_ops, h, Op.panel]

theorem trailing_ops_panel (n nb j jb : Nat) :
    (trailing_ops n nb j jb).filterMap Op.panel = [] := by
  unfold trailing_ops
  by_cases h1 : j + jb < n
  · by_cases h2 : j + jb + min nb (n - (j + jb)) < n <;> simp [h1, h2, Op.panel]
  · simp [h1]

theorem spec_panels_of_ge (n nb fuel j : Nat) (h : n ≤ j) : spec_panels n nb fuel j = [] := by
  cases fuel with
  | zero => rfl
  | succ f => simp [spec_panels, Nat.not_lt.mpr h]

theorem spec_panels_succ (n nb fuel j : Nat) (h : j < n) :
    spec_panels n nb (fuel + 1) j =
      (j, min nb (n - j)) :: spec_panels n nb fuel (j + min nb (n - j)) := by
  simp [spec_panels, h]

/-- Stepping by `nb` (the source) and by `jb` (the specification) reach the
same continuation: they differ only on the last panel, after which both stop. -/
theorem spec_panels_step (n nb fuel j : Nat) (h : j < n) :
    spec_panels n nb fuel (j + min nb (n - j)) = spec_panels n nb fuel (j + nb) := by
  by_cases h1 : nb ≤ n - j
  · rw [Nat.min_eq_left h1]
  · rw [spec_panels_of_ge _ _ _ _ (by omega), spec_panels_of_ge _ _ _ _ (by omega)]

theorem block_loop_panels (ar : Arith K) (hybrid : Int) (n ldda nb : Nat) :
    ∀ (fuel j : Nat) (s : State K),
      (hybrid = 1 → (block_loop ar hybrid n ldda nb fuel j s).info = 0) →
      (block_loop ar hybrid n ldda nb fuel j s).trace.filterMap Op.panel =
        s.trace.filterMap Op.panel ++ spec_panels n nb fuel j := by
  intro fuel
  induction fuel with
  | zero => intro j s _; simp [block_loop, spec_panels]
  | succ f ih =>
    intro j s hok
    by_cases hj : n ≤ j
    · rw [block_loop_of_ge _ _ _ _ _ _ _ _ hj, spec_panels_of_ge _ _ _ _ hj]; simp
    · have hj2 : j < n := by omega
      rw [spec_panels_succ _ _ _ _ hj2, spec_panels_step _ _ _ _ hj2]
      by_cases hy : hybrid = 1
      · subst hy
        by_cases hf : (panel_hybrid ar ldda j (min nb (n - j)) s).info = 0
        · rw [block_loop_hybrid_ok _ _ _ _ _ _ _ hj2 hf] at hok ⊢
          rw [ih _ _ hok, trailing_update_trace, panel_hybrid_trace, List.filterMap_append,
            List.filterMap_append, panel_ops_panel, trailing_ops_panel]
          simp
        · exfalso
          have h0 := hok rfl
          rw [block_loop_hybrid_fail _ _ _ _ _ _ _ hj2 hf] at h0
          have h1 := panel_hybrid_info_nonneg ar ldda j (min nb (n - j)) s
          have h2 : (panel_hybrid ar ldda j (min nb (n - j)) s).info + (j : Int) = 0 := h0
          omega
      · rw [block_loop_native _ _ hy _ _ _ _ _ _ hj2] at hok ⊢
        rw [ih _ _ hok, trailing_update_trace, panel_native_trace _ _ hy,
          List.filterMap_append, List.filterMap_append, panel_ops_panel, trailing_ops_panel]
        simp

theorem spec_panels_closed (n nb : Nat) (hnb : 1 ≤ nb) :
    ∀ (fuel k : Nat), n - k * nb ≤ fuel →
      spec_panels n nb fuel (k * nb) =
        (List.range' k ((n + nb - 1) / nb - k)).map (fun i => (i * nb, min nb (n - i * nb))) := by
  intro fuel
  induction fuel with
  | zero =>
    intro k h
    have h1 : (n + nb - 1) / nb < k + 1 := by
      rw [Nat.div_lt_iff_lt_mul (by omega)]
      have : (k + 1) * nb = k * nb + nb := by ring
      omega
    have h2 : (n + nb - 1) / nb - k = 0 := by omega
    simp [spec_panels, h2]
  | succ f ih =>
    intro k h
    have hmul : (k + 1) * nb = k * nb + nb := by ring
    by_cases hj : n ≤ k * nb
    · have h1 : (n + nb - 1) / nb < k + 1 := by
        rw [Nat.div_lt_iff_lt_mul (by omega)]
        omega
      have h2 : (n + nb - 1) / nb - k = 0 := by omega
      rw [spec_panels_of_ge _ _ _ _ hj, h2]; simp
    · have hj2 : k * nb < n := by omega
      have h1 : k + 1 ≤ (n + nb - 1) / nb := by
        rw [Nat.le_div_iff_mul_le (by omega)]
        omega
      have h2 : (n + nb - 1) / nb - k = ((n + nb - 1) / nb - (k + 1)) + 1 := by omega
      rw [spec_panels_succ _ _ _ _ hj2, spec_panels_step _ _ _ _ hj2, h2, List.range'_succ,
        List.map_cons, ← hmul, ih (k + 1) (by omega)]

theorem spec_panels_sum (n nb : Nat) (hnb : 1 ≤ nb) :
    ∀ (fuel j : Nat), j ≤ n → n - j ≤ fuel →
      ((spec_panels n nb fuel j).map Prod.snd).sum = n - j := by
  intro fuel
  induction fuel with
  | zero => intro j h1 h2; simp [spec_panels]; omega
  | succ f ih =>
    intro j h1 h2
    by_cases hj : n ≤ j
    · rw [spec_panels_of_ge _ _ _ _ hj]; simp; omega
    · have hj2 : j < n := by omega
      rw [spec_panels_succ _ _ _ _ hj2, List.map_cons, List.sum_cons,
        ih _ (by omega) (by omega)]
      simp only []
      omega

theorem loop_entry_panel (dA : Nat → K) (nb : Nat) :
    (loop_entry dA nb).trace.filterMap Op.panel = [] := by
  simp [loop_entry, Op.panel]

theorem loop_exit_lower (ar : Arith K) (hybrid : Int) (n ldda nb : Nat) (dA : Nat → K) :
    loop_exit ar hybrid magma_uplo_t.MagmaLower n ldda nb dA =
      block_loop ar hybrid n ldda nb n 0 (loop_entry dA nb) := by
  simp [loop_exit]

theorem panel_ops_not_trailing (hybrid : Int) (j jb : Nat) :
    ∀ op ∈ panel_ops hybrid j jb, op.is_trailing = false := by
  by_cases h : hybrid = 1 <;> simp [panel_ops, h, Op.is_trailing]

/-- C9. When no panel fails (the loop is left with `*info = 0`; the native
variant never leaves early), the block loop of the source, which advances `j`
by `nb`, visits exactly the `(j, jb)` of the specified loop, which advances by
`jb = min(nb, n-j)`. The offsets are `k*nb` for `k < ceil(n/nb)`, every `jb` is
between 1 and `nb`, consecutive offsets differ by `jb`, the `jb` sum to `n`,
and for `0 < n <= nb` there is one panel and no trailing-update kernel. -/
theorem C9_block_loop_visits_spec_panels (ar : Arith K) (hybrid : Int) (n ldda nb : Nat)
    (dA : Nat → K) (hnb : 1 ≤ nb)
    (hok : hybrid = 1 →
      (loop_exit ar hybrid magma_uplo_t.MagmaLower n ldda nb dA).info = 0) :
    (loop_exit ar hybrid magma_uplo_t.MagmaLower n ldda nb dA).trace.filterMap Op.panel =
        spec_panels n nb n 0 ∧
      spec_panels n nb n 0 =
        (List.range ((n + nb - 1) / nb)).map (fun k => (k * nb, min nb (n - k * nb))) ∧
      (∀ k, k < (n + nb - 1) / nb → 1 ≤ min nb (n - k * nb) ∧ min nb (n - k * nb) ≤ nb) ∧
      (∀ k, k + 1 < (n + nb - 1) / nb → (k + 1) * nb = k * nb + min nb (n - k * nb)) ∧
      ((spec_panels n nb n 0).map Prod.snd).sum = n ∧
      (0 < n → n ≤ nb →
        (loop_exit ar hybrid magma_uplo_t.MagmaLower n ldda nb dA).trace.filterMap Op.panel =
            [(0, n)] ∧
          ∀ op ∈ (loop_exit ar hybrid magma_uplo_t.MagmaLower n ldda nb dA).trace,
            op.is_trailing = false) := by
  rw [loop_exit_lower] at hok ⊢
  have hpan := block_loop_panels ar hybrid n ldda nb n 0 (loop_entry dA nb) hok
  rw [loop_entry_panel, List.nil_append] at hpan
  have hlt : ∀ k, k < (n + nb - 1) / nb → k * nb < n := by
    intro k hk
    have h1 : k + 1 ≤ (n + nb - 1) / nb := hk
    rw [Nat.le_div_iff_mul_le (by omega)] at h1
    have : (k + 1) * nb = k * nb + nb := by ring
    omega
  refine ⟨hpan, ?_, ?_, ?_, ?_, ?_⟩
  · have h := spec_panels_closed n nb hnb n 0 (by omega)
    rw [Nat.zero_mul] at h
    rw [h, List.range_eq_range']
    simp
  · intro k hk
    have := hlt k hk
    omega
  · intro k hk
    have h1 := hlt (k + 1) hk
    have : (k + 1) * nb = k * nb + nb := by ring
    omega
  · have := spec_panels_sum n nb hnb n 0 (by omega) (by omega)
    simpa using this
  · intro hn0 hn
    refine ⟨?_, ?_⟩
    · rw [hpan]
      obtain ⟨m, rfl⟩ : ∃ m, n = m + 1 := ⟨n - 1, by omega⟩
      rw [spec_panels_succ _ _ _ _ (by omega), spec_panels_of_ge _ _ _ _ (by omega)]
      simp
      omega
    · intro op hop
      obtain ⟨l, hl, hmem⟩ := block_loop_trace_append ar hybrid n ldda nb n 0 (loop_entry dA nb)
      rw [hl, List.mem_append] at hop
      rcases hop with hop | hop
      · revert hop
        simp only [loop_entry, List.mem_cons, List.mem_singleton, List.not_mem_nil, or_false]
        rintro (h | h | h | h | h | h | h) <;> subst h <;> rfl
      · obtain ⟨k, hk, h | h⟩ := hmem op hop
        · exact panel_ops_not_trailing _ _ _ op h
        · have : trailing_ops n nb k (min nb (n - k)) = [] := by
            unfold trailing_ops
            rw [if_neg (by omega)]
          rw [this] at h
          simp at h

/-- Witness of C9: the identity of order 3 with `nb = 2`, host-assisted
variant; no panel fails. -/
theorem C9_block_loop_visits_spec_panels_witness :
    (loop_exit ratArith 1 magma_uplo_t.MagmaLower 3 3 2 (idBuf 3 3)).trace.filterMap Op.panel =
        spec_panels 3 2 3 0 ∧
      spec_panels 3 2 3 0 =
        (List.range ((3 + 2 - 1) / 2)).map (fun k => (k * 2, min 2 (3 - k * 2))) ∧
      (∀ k, k < (3 + 2 - 1) / 2 → 1 ≤ min 2 (3 - k * 2) ∧ min 2 (3 - k * 2) ≤ 2) ∧
      (∀ k, k + 1 < (3 + 2 - 1) / 2 → (k + 1) * 2 = k * 2 + min 2 (3 - k * 2)) ∧
      ((spec_panels 3 2 3 0).map Prod.snd).sum = 3 ∧
      (0 < 3 → 3 ≤ 2 →
        (loop_exit ratArith 1 magma_uplo_t.MagmaLower 3 3 2 (idBuf 3 3)).trace.filterMap
            Op.panel = [(0, 3)] ∧
          ∀ op ∈ (loop_exit ratArith 1 magma_uplo_t.MagmaLower 3 3 2 (idBuf 3 3)).trace,
            op.is_trailing = false) :=
  C9_block_loop_visits_spec_panels ratArith 1 3 3 2 (idBuf 3 3) (by decide)
    (fun _ => by decide!)

end Panels

/-! ## Sub-blocks stay inside the matrix -/

section Bounds

variable {K : Type} [Field K]

theorem panel_ops_inside (hybrid : Int) (n nb k : Nat) (hnb : 1 ≤ nb) (hk : k < n) :
    ∀ op ∈ panel_ops hybrid k (min nb (n - k)),
      (∀ v ∈ op.views, v.inside n ∧ 0 < v.rows ∧ 0 < v.cols) ∧
        ∀ jb, op.staging = some jb → jb ≤ nb := by
  intro op hop
  unfold panel_ops at hop
  by_cases h : hybrid = 1
  · simp only [h, if_true, List.mem_cons, List.mem_singleton, List.not_mem_nil, or_false] at hop
    rcases hop with rfl | rfl | rfl | rfl <;>
      simp [Op.views, Op.staging, View.inside] <;> omega
  · simp only [h, if_false, List.mem_singleton] at hop
    subst hop
    simp [Op.views, Op.staging, View.inside]
    omega

theorem trailing_ops_inside (n nb k : Nat) (hnb : 1 ≤ nb) :
    ∀ op ∈ trailing_ops n nb k (min nb (n - k)),
      (∀ v ∈ op.views, v.inside n ∧ 0 < v.rows ∧ 0 < v.cols) ∧
        ∀ jb, op.staging = some jb → jb ≤ nb := by
  intro op hop
  unfold trailing_ops at hop
  by_cases h1 : k + min nb (n - k) < n
  · by_cases h2 : k + min nb (n - k) + min nb (n - (k + min nb (n - k))) < n
    · simp only [h1, h2, if_true, List.mem_append, List.mem_cons, List.mem_singleton,
        List.not_mem_nil, or_false] at hop
      rcases hop with (rfl | rfl | rfl) | (rfl | rfl | rfl) <;>
        simp [Op.views, Op.staging, View.inside] <;> omega
    · simp only [h1, h2, if_true, if_false, List.mem_append, List.mem_cons, List.mem_singleton,
        List.not_mem_nil, or_false] at hop
      rcases hop with rfl | rfl | rfl <;>
        simp [Op.views, Op.staging, View.inside] <;> omega
  · simp [h1] at hop

/-- Linear offsets of a view inside the matrix stay below `ldda*n`. -/
theorem View.inside_offset (n ldda : Nat) (v : View) (hv : v.inside n) (hld : n ≤ ldda)
    (r c : Nat) (hr : r < v.rows) (hc : c < v.cols) :
    dAoff ldda v.row v.col + r + c * ldda < ldda * n := by
  obtain ⟨h1, h2⟩ := hv
  have h3 : (v.col + c + 1) * ldda ≤ n * ldda := Nat.mul_le_mul_right _ (by omega)
  rw [Nat.add_mul, Nat.add_mul, Nat.one_mul] at h3
  rw [Nat.mul_comm ldda n]
  unfold dAoff
  omega

/-- A `jb x jb` staging copy with leading dimension `jb` fits in `nb*nb`. -/
theorem staging_offset (nb jb : Nat) (h : jb ≤ nb) (r c : Nat) (hr : r < jb) (hc : c < jb) :
    r + c * jb < nb * nb := by
  have h1 : (c + 1) * jb ≤ jb * jb := Nat.mul_le_mul_right _ (by omega)
  have h2 : jb * jb ≤ nb * nb := Nat.mul_le_mul h h
  rw [Nat.add_mul, Nat.one_mul] at h1
  omega

theorem loop_exit_inside (ar : Arith K) (hybrid : Int) (uplo : magma_uplo_t) (n ldda nb : Nat)
    (dA : Nat → K) (hnb : 1 ≤ nb) :
    ∀ op ∈ (loop_exit ar hybrid uplo n ldda nb dA).trace,
      (∀ v ∈ op.views, v.inside n ∧ 0 < v.rows ∧ 0 < v.cols) ∧
        ∀ jb, op.staging = some jb → jb ≤ nb := by
  have hentry : ∀ op ∈ (loop_entry dA nb).trace,
      (∀ v ∈ op.views, v.inside n ∧ 0 < v.rows ∧ 0 < v.cols) ∧
        ∀ jb, op.staging = some jb → jb ≤ nb := by
    intro op hop
    simp only [loop_entry, List.mem_cons, List.mem_singleton, List.not_mem_nil, or_false] at hop
    rcases hop with rfl | rfl | rfl | rfl | rfl | rfl | rfl <;> simp [Op.views, Op.staging]
  intro op hop
  unfold loop_exit at hop
  by_cases hu : uplo = magma_uplo_t.MagmaUpper
  · simp only [hu, if_true, emit, List.mem_append, List.mem_singleton] at hop
    rcases hop with hop | rfl
    · exact hentry op hop
    · simp [Op.views, Op.staging]
  · simp only [hu, if_false] at hop
    obtain ⟨l, hl, hmem⟩ := block_loop_trace_append ar hybrid n ldda nb n 0 (loop_entry dA nb)
    rw [hl, List.mem_append] at hop
    rcases hop with hop | hop
    · exact hentry op hop
    · obtain ⟨k, hk, h | h⟩ := hmem op hop
      · exact panel_ops_inside hybrid n nb k hnb hk op h
      · exact trailing_ops_inside n nb k hnb op h

theorem cleanup_ops_views : ∀ op ∈ cleanup_ops, op.views = [] ∧ op.staging = none := by
  intro op hop
  simp only [cleanup_ops, List.mem_cons, List.mem_singleton, List.not_mem_nil, or_false] at hop
  rcases hop with rfl | rfl | rfl | rfl | rfl | rfl | rfl <;> simp [Op.views, Op.staging]

/-- Inside its range a `magma_int_t` expression has its exact value. -/
theorem magma_int_t_of_range (x : Int) (h1 : -2 ^ 31 ≤ x) (h2 : x < 2 ^ 31) :
    magma_int_t x = x := by
  unfold magma_int_t
  norm_num at h1 h2 ⊢
  omega

/-- For a matrix of at most `2^31` entries the macro `dA(i_, j_)` computes the
exact offset of every entry in a column `j < n`. -/
theorem dA_macro_exact (n ldda : Nat) (hld : 0 < ldda) (hsz : ldda * n ≤ 2 ^ 31) (i j : Nat)
    (hj : j < n) : dA_macro (ldda : Int) (i : Int) (j : Int) = ((i + j * ldda : Nat) : Int) := by
  have h1 : (j + 1) * ldda ≤ n * ldda := Nat.mul_le_mul_right _ hj
  rw [Nat.add_mul, Nat.one_mul, Nat.mul_comm n ldda] at h1
  have h2 : j * ldda < 2 ^ 31 := by omega
  have h3 : ((j * ldda : Nat) : Int) < 2 ^ 31 := by exact_mod_cast h2
  have h4 : (0 : Int) ≤ ((j * ldda : Nat) : Int) := Int.ofNat_nonneg _
  unfold dA_macro
  rw [show (j : Int) * (ldda : Int) = ((j * ldda : Nat) : Int) by push_cast; ring,
    magma_int_t_of_range _ (by norm_num at h4 ⊢; omega) h3]
  push_cast
  ring

/-- C7, for matrices of at most `2^31` entries. For `n >= 0`,
`ldda >= max(1, n)` with `ldda*n <= 2^31` and either variant, every sub-block
passed to a transfer or kernel has positive dimensions and lies inside the
matrix (`row + rows <= n`, `col + cols <= n`); every linear offset it
addresses is below `ldda*n`, and the macro `dA(i_, j_)`, which multiplies in
`magma_int_t`, computes exactly that offset; and the `jb x jb` staging copy
addresses offsets below `nb*nb = 1024*1024`. Sizes are naturals here; a size
that the source would obtain as zero or negative from a subtraction would be
0, which the positivity excludes. Under the size bound `n <= 46340`, so the
loop counters stay far inside the range of `magma_int_t`. -/
theorem C7_views_inside_matrix (ar : Arith K) (env : Env) (hybrid : Int)
    (uplo : magma_uplo_t) (n ldda : Int) (dA : Nat → K) (hn : 0 ≤ n) (hld : max 1 n ≤ ldda)
    (hsz : ldda * n ≤ 2 ^ 31) :
    ∀ op ∈ (magma_zpotrf_native_gpu ar env hybrid uplo n dA ldda).trace,
      (∀ v ∈ op.views, v.inside n.toNat ∧ 0 < v.rows ∧ 0 < v.cols ∧
        ∀ r c, r < v.rows → c < v.cols →
          dAoff ldda.toNat v.row v.col + r + c * ldda.toNat < ldda.toNat * n.toNat ∧
          dA_macro ldda ((v.row + r : Nat) : Int) ((v.col + c : Nat) : Int) =
            ((dAoff ldda.toNat v.row v.col + r + c * ldda.toNat : Nat) : Int)) ∧
      ∀ jb, op.staging = some jb → ∀ r c, r < jb → c < jb → r + c * jb < 1024 * 1024 := by
  have hnl : n.toNat ≤ ldda.toNat := by omega
  have hl0 : 0 < ldda.toNat := by omega
  have hlc : ((ldda.toNat : Nat) : Int) = ldda := Int.toNat_of_nonneg (by omega)
  have hnc : ((n.toNat : Nat) : Int) = n := Int.toNat_of_nonneg hn
  have hszN : ldda.toNat * n.toNat ≤ 2 ^ 31 := by
    have h : (((ldda.toNat * n.toNat : Nat)) : Int) ≤ 2 ^ 31 := by
      push_cast
      rw [hlc, hnc]
      exact hsz
    exact_mod_cast h
  have key : ∀ op : Op, ((∀ v ∈ op.views, v.inside n.toNat ∧ 0 < v.rows ∧ 0 < v.cols) ∧
      ∀ jb, op.staging = some jb → jb ≤ 1024) →
      (∀ v ∈ op.views, v.inside n.toNat ∧ 0 < v.rows ∧ 0 < v.cols ∧
        ∀ r c, r < v.rows → c < v.cols →
          dAoff ldda.toNat v.row v.col + r + c * ldda.toNat < ldda.toNat * n.toNat ∧
          dA_macro ldda ((v.row + r : Nat) : Int) ((v.col + c : Nat) : Int) =
            ((dAoff ldda.toNat v.row v.col + r + c * ldda.toNat : Nat) : Int)) ∧
      ∀ jb, op.staging = some jb → ∀ r c, r < jb → c < jb → r + c * jb < 1024 * 1024 := by
    intro op h
    refine ⟨fun v hv => ⟨(h.1 v hv).1, (h.1 v hv).2.1, (h.1 v hv).2.2, fun r c hr hc => ⟨?_, ?_⟩⟩,
      fun jb hjb r c hr hc => ?_⟩
    · exact View.inside_offset _ _ v (h.1 v hv).1 hnl r c hr hc
    · have hin := (h.1 v hv).1
      have hcn : v.col + c < n.toNat := by
        have := hin.2
        omega
      have e := dA_macro_exact n.toNat ldda.toNat hl0 hszN (v.row + r) (v.col + c) hcn
      rw [hlc] at e
      rw [e]
      congr 1
      unfold dAoff
      rw [Nat.add_mul]
      omega
    · exact staging_offset 1024 jb (h.2 jb hjb) r c hr hc
  have hnone : ∀ op : Op, op.views = [] ∧ op.staging = none →
      (∀ v ∈ op.views, v.inside n.toNat ∧ 0 < v.rows ∧ 0 < v.cols) ∧
        ∀ jb, op.staging = some jb → jb ≤ 1024 := by
    intro op h
    rw [h.1, h.2]
    simp
  intro op hop
  apply key
  by_cases hu : uplo = magma_uplo_t.MagmaLower
  · subst hu
    by_cases ha : env.host_alloc_ok = false
    · rw [native_gpu_host_alloc_fail ar env hybrid n ldda dA hn hld ha] at hop
      rcases List.mem_cons.mp hop with rfl | hop
      · simp [Op.views, Op.staging]
      · exact hnone op (cleanup_ops_views op hop)
    · have ha2 : env.host_alloc_ok = true := by simpa using ha
      by_cases hb : env.dev_alloc_ok = false
      · rw [native_gpu_dev_alloc_fail ar env hybrid n ldda dA hn hld ha2 hb] at hop
        rcases List.mem_cons.mp hop with rfl | hop
        · simp [Op.views, Op.staging]
        · rcases List.mem_cons.mp hop with rfl | hop
          · simp [Op.views, Op.staging]
          · exact hnone op (cleanup_ops_views op hop)
      · have hb2 : env.dev_alloc_ok = true := by simpa using hb
        rw [native_gpu_run ar env hybrid n ldda dA hn hld ha2 hb2] at hop
        rcases List.mem_append.mp hop with hop | hop
        · rw [← loop_exit_lower] at hop
          exact loop_exit_inside ar hybrid magma_uplo_t.MagmaLower n.toNat ldda.toNat 1024 dA
            (by omega) op hop
        · rcases List.mem_cons.mp hop with rfl | hop
          · simp [Op.views, Op.staging]
          · exact hnone op (cleanup_ops_views op hop)
  · rw [native_gpu_invalid ar env hybrid uplo n ldda dA (Or.inl hu)] at hop
    rcases List.mem_singleton.mp hop with rfl
    simp [Op.views, Op.staging]

/-- Witness of C7: `n = 2049`, `ldda = 2064`, device-native variant, identity
matrix; the trace has a triangular solve, rank-k updates and a multiply. -/
theorem C7_views_inside_matrix_witness :
    ((0 : Int) ≤ 2049 ∧ max 1 (2049 : Int) ≤ 2064 ∧ (2064 : Int) * 2049 ≤ 2 ^ 31) ∧
    (Op.ztrsm ⟨0, 0, 1024, 1024⟩ ⟨1024, 0, 1025, 1024⟩ 0 ∈
        (magma_zpotrf_native_gpu ratArith envOk 0 magma_uplo_t.MagmaLower 2049
          (idBuf 2049 2064) 2064).trace ∧
      Op.zherk ⟨1024, 0, 1024, 1024⟩ ⟨1024, 1024, 1024, 1024⟩ 0 ∈
        (magma_zpotrf_native_gpu ratArith envOk 0 magma_uplo_t.MagmaLower 2049
          (idBuf 2049 2064) 2064).trace ∧
      Op.zgemm ⟨2048, 0, 1, 1024⟩ ⟨1024, 0, 1024, 1024⟩ ⟨2048, 1024, 1, 1024⟩ 1 ∈
        (magma_zpotrf_native_gpu ratArith envOk 0 magma_uplo_t.MagmaLower 2049
          (idBuf 2049 2064) 2064).trace ∧
      Op.zherk ⟨2048, 0, 1, 1024⟩ ⟨2048, 2048, 1, 1⟩ 1 ∈
        (magma_zpotrf_native_gpu ratArith envOk 0 magma_uplo_t.MagmaLower 2049
          (idBuf 2049 2064) 2064).trace) ∧
    ∀ op ∈ (magma_zpotrf_native_gpu ratArith envOk 0 magma_uplo_t.MagmaLower 2049
        (idBuf 2049 2064) 2064).trace,
      (∀ v ∈ op.views, v.inside (2049 : Int).toNat ∧ 0 < v.rows ∧ 0 < v.cols ∧
        ∀ r c, r < v.rows → c < v.cols →
          dAoff (2064 : Int).toNat v.row v.col + r + c * (2064 : Int).toNat <
            (2064 : Int).toNat * (2049 : Int).toNat ∧
          dA_macro 2064 ((v.row + r : Nat) : Int) ((v.col + c : Nat) : Int) =
            ((dAoff (2064 : Int).toNat v.row v.col + r + c * (2064 : Int).toNat : Nat) : Int)) ∧
      ∀ jb, op.staging = some jb → ∀ r c, r < jb → c < jb → r + c * jb < 1024 * 1024 :=
  ⟨⟨by decide, by decide, by decide⟩, ⟨by decide, by decide, by decide, by decide⟩,
    C7_views_inside_matrix ratArith envOk 0 magma_uplo_t.MagmaLower 2049 2064 (idBuf 2049 2064)
      (by decide) (by decide) (by decide)⟩

set_option maxRecDepth 1000000 in
/-- The last panel of the device-native variant for `n = ldda = 47104` starts
at offset `j = 46080`. -/
theorem native_last_panel_47104 :
    Op.zpotrf_rectile_native ⟨46080, 46080, 1024, 1024⟩ 46080 0 ∈
      (magma_zpotrf_native_gpu ratArith envOk 0 magma_uplo_t.MagmaLower 47104
        (idBuf 47104 47104) 47104).trace := by
  decide

/-- C7 fails as stated: `n = ldda = 47104`, device-native variant. The last
panel is the `1024 x 1024` block at `(46080, 46080)`, which lies inside the
matrix, and its entry `(46080, 46080)` has the offset `2170598400`, below
`ldda*n`. The macro `dA(j, j)` forms `46080*47104` in `magma_int_t`, where it
wraps around: the block is addressed at offset `-2124368896`, before the start
of the matrix. -/
theorem C7_offset_wraps_for_large_matrix :
    ((0 : Int) ≤ 47104 ∧ max 1 (47104 : Int) ≤ 47104) ∧
    Op.zpotrf_rectile_native ⟨46080, 46080, 1024, 1024⟩ 46080 0 ∈
      (magma_zpotrf_native_gpu ratArith envOk 0 magma_uplo_t.MagmaLower 47104
        (idBuf 47104 47104) 47104).trace ∧
    View.inside 47104 ⟨46080, 46080, 1024, 1024⟩ ∧
    dAoff 47104 46080 46080 = 2170598400 ∧
    dAoff 47104 46080 46080 < 47104 * 47104 ∧
    dA_macro 47104 46080 46080 = -2124368896 ∧
    ¬ (0 ≤ dA_macro 47104 46080 46080 ∧ dA_macro 47104 46080 46080 < 47104 * 47104) := by
  refine ⟨⟨by decide, by decide⟩, native_last_panel_47104, ⟨by decide, by decide⟩, by decide,
    by decide, by decide, by decide⟩

end Bounds

/-! ## Status and failure paths -/

section Status

variable {K : Type} [Field K]

/-- C1, evaluated. Host-assisted variant, `n = 2`, `A = [[4,0],[0,-1]]`: the
host factorization of the only panel (`j = 0`) reports index 2, so `*info` is
`0 + 2 = 2` when the loop is left, yet the call returns 0, the content of the
status cell that the final fetch copies over `*info`. -/
theorem C1_hybrid_failure_returns_zero :
    (loop_exit ratArith 1 magma_uplo_t.MagmaLower 2 2 1024 (bufOfList [4, 0, 0, -1])).info = 2 ∧
      (magma_zpotrf_native_gpu ratArith envOk 1 magma_uplo_t.MagmaLower 2
        (bufOfList [4, 0, 0, -1]) 2).ret = 0 := by
  constructor <;> decide!

/-- C2, evaluated. With `uplo = MagmaUpper` (argument 2 of the call) the
routine returns -1; with `n = -1` (argument 3) it returns -2; with `ldda = 0`
(argument 5) it returns -4. -/
theorem C2_argument_index_off_by_one :
    (magma_zpotrf_native_gpu ratArith envOk 0 magma_uplo_t.MagmaUpper 1 (bufOfList [1]) 1).ret
        = -1 ∧
      (magma_zpotrf_native_gpu ratArith envOk 0 magma_uplo_t.MagmaLower (-1) (bufOfList [1]) 1).ret
        = -2 ∧
      (magma_zpotrf_native_gpu ratArith envOk 0 magma_uplo_t.MagmaLower 1 (bufOfList [1]) 0).ret
        = -4 := by
  refine ⟨?_, ?_, ?_⟩ <;> decide

/-- In the host-assisted variant a call with valid arguments and successful
allocations returns 0 whatever the panels report: the final fetch overwrites
`*info` with the status cell, which nothing has written since it was cleared. -/
theorem hybrid_returns_zero (ar : Arith K) (env : Env) (n ldda : Int) (dA : Nat → K)
    (hn : 0 ≤ n) (hld : max 1 n ≤ ldda) (ha : env.host_alloc_ok = true)
    (hb : env.dev_alloc_ok = true) :
    (magma_zpotrf_native_gpu ar env 1 magma_uplo_t.MagmaLower n dA ldda).ret = 0 := by
  rw [native_gpu_run ar env 1 n ldda dA hn hld ha hb]
  exact block_loop_hybrid_dinfo ar n.toNat ldda.toNat 1024 n.toNat 0 (loop_entry dA 1024)

/-- C5, evaluated. When the pinned host allocation fails the routine returns
`MAGMA_ERR_HOST_ALLOC`, and when the device allocation fails it returns
`MAGMA_ERR_DEVICE_ALLOC`; on both paths the jump to `cleanup` synchronizes and
destroys the two queues and the event, none of which was created, and frees
both buffers, although the status cell (and on the first path the staging
buffer too) was never allocated. -/
theorem C5_alloc_failure_trace :
    (magma_zpotrf_native_gpu ratArith ⟨false, true, -112, -113⟩ 0 magma_uplo_t.MagmaLower 1
        (bufOfList [1]) 1).ret = -112 ∧
      (magma_zpotrf_native_gpu ratArith ⟨false, true, -112, -113⟩ 0 magma_uplo_t.MagmaLower 1
        (bufOfList [1]) 1).trace =
        [Op.zmalloc_pinned (1024 * 1024) false, Op.queue_sync 0, Op.queue_sync 1,
         Op.event_destroy, Op.queue_destroy 0, Op.queue_destroy 1, Op.free_pinned, Op.free] ∧
      (magma_zpotrf_native_gpu ratArith ⟨true, false, -112, -113⟩ 0 magma_uplo_t.MagmaLower 1
        (bufOfList [1]) 1).ret = -113 ∧
      (magma_zpotrf_native_gpu ratArith ⟨true, false, -112, -113⟩ 0 magma_uplo_t.MagmaLower 1
        (bufOfList [1]) 1).trace =
        [Op.zmalloc_pinned (1024 * 1024) true, Op.imalloc false, Op.queue_sync 0,
         Op.queue_sync 1, Op.event_destroy, Op.queue_destroy 0, Op.queue_destroy 1,
         Op.free_pinned, Op.free] := by
  refine ⟨?_, ?_, ?_, ?_⟩ <;> decide

/-- Every operation in the trace at the final fetch satisfies a property that
holds of the entry operations and of all panel and trailing-update operations. -/
theorem block_loop_trace_forall (ar : Arith K) (hybrid : Int) (n ldda nb : Nat) (dA : Nat → K)
    (P : Op → Prop) (hentry : ∀ op ∈ (loop_entry dA nb).trace, P op)
    (hpanel : ∀ k jb, ∀ op ∈ panel_ops hybrid k jb, P op)
    (htrail : ∀ k jb, ∀ op ∈ trailing_ops n nb k jb, P op) (fuel j : Nat) :
    ∀ op ∈ (block_loop ar hybrid n ldda nb fuel j (loop_entry dA nb)).trace, P op := by
  intro op hop
  obtain ⟨l, hl, hmem⟩ := block_loop_trace_append ar hybrid n ldda nb fuel j (loop_entry dA nb)
  rw [hl, List.mem_append] at hop
  rcases hop with hop | hop
  · exact hentry op hop
  · obtain ⟨k, _, h | h⟩ := hmem op hop
    · exact hpanel _ _ op h
    · exact htrail _ _ op h

/-- Without an early exit the trace of the loop does not depend on the data:
this is the case of the device-native variant. -/
theorem block_loop_native_trace (ar : Arith K) (hybrid : Int) (hy : hybrid ≠ 1)
    (n ldda nb : Nat) :
    ∀ (fuel j : Nat) (s : State K),
      (block_loop ar hybrid n ldda nb fuel j s).trace = s.trace ++ loop_ops hybrid n nb fuel j := by
  intro fuel
  induction fuel with
  | zero => intro j s; simp [block_loop, loop_ops]
  | succ f ih =>
    intro j s
    by_cases hj : n ≤ j
    · rw [block_loop_of_ge _ _ _ _ _ _ _ _ hj]
      simp [loop_ops, Nat.not_lt.mpr hj]
    · have hj2 : j < n := by omega
      rw [block_loop_native _ _ hy _ _ _ _ _ _ hj2, ih, trailing_update_trace,
        panel_native_trace _ _ hy]
      simp [loop_ops, hj2, List.append_assoc]

/-- C4, as the code has it. In the host-assisted variant the loop stops at a
failing panel: it issues the operations of that panel and nothing after them.
In the device-native variant (`hybrid = 0`) the loop does not look at the
status: it issues every panel and every trailing update, whatever the panels
report. -/
theorem C4_hybrid_stops_native_continues (ar : Arith K) (n ldda nb : Nat) :
    stops_on_failure ar 1 n ldda nb ∧
      ∀ (fuel j : Nat) (s : State K),
        (block_loop ar 0 n ldda nb fuel j s).trace = s.trace ++ loop_ops 0 n nb fuel j := by
  refine ⟨?_, block_loop_native_trace ar 0 (by decide) n ldda nb⟩
  intro fuel j s hj hf
  have hf2 : (panel_hybrid ar ldda j (min nb (n - j)) s).info ≠ 0 := by
    simpa [panel_fails] using hf
  rw [block_loop_hybrid_fail _ _ _ _ _ _ _ hj hf2]
  exact panel_hybrid_trace ar ldda j (min nb (n - j)) s

/-- C4 fails for the device-native variant: `n = 1025`, `A(0,0) = -1`. The
factorization of the first panel (`j = 0`, `jb = 1024`) reports index 1, and
the trace goes on with the triangular solve, the rank-k update and the panel
at offset 1024. -/
theorem C4_native_continues_after_failure :
    (potf2 ratArith 1024 (readBlock negCorner (dAoff 1025 0 0) 1025)).2 = 1 ∧
      (magma_zpotrf_native_gpu ratArith envOk 0 magma_uplo_t.MagmaLower 1025 negCorner
        1025).trace =
        [Op.zmalloc_pinned (1024 * 1024) true, Op.imalloc true, Op.getdevice,
         Op.queue_create 0, Op.queue_create 1, Op.event_create, Op.setvector 0,
         Op.zpotrf_rectile_native ⟨0, 0, 1024, 1024⟩ 0 0,
         Op.ztrsm ⟨0, 0, 1024, 1024⟩ ⟨1024, 0, 1, 1024⟩ 0, Op.event_record 0,
         Op.zherk ⟨1024, 0, 1, 1024⟩ ⟨1024, 1024, 1, 1⟩ 0,
         Op.zpotrf_rectile_native ⟨1024, 1024, 1, 1⟩ 1024 0,
         Op.getvector 0, Op.queue_sync 0, Op.queue_sync 1, Op.event_destroy,
         Op.queue_destroy 0, Op.queue_destroy 1, Op.free_pinned, Op.free] ∧
      ¬ stops_on_failure ratArith 0 1025 1025 1024 := by
  refine ⟨by decide!, by decide, ?_⟩
  intro h
  have h1 := h 1024 0 (loop_entry negCorner 1024) (by decide)
    (by simp only [panel_fails]; decide!)
  exact absurd h1 (by decide)

/-- C6, as the code has it. For `n = 0` with valid arguments and successful
allocations, either variant returns 0 and leaves the matrix buffer alone; no
kernel, matrix transfer or event operation is issued, but the queues are not
idle: the status cell is written and read back on queue 0 and both queues are
synchronized. -/
theorem C6_order_zero_queue_ops (ar : Arith K) (env : Env) (hybrid : Int) (ldda : Int)
    (dA : Nat → K) (hld : 1 ≤ ldda) (ha : env.host_alloc_ok = true)
    (hb : env.dev_alloc_ok = true) :
    (magma_zpotrf_native_gpu ar env hybrid magma_uplo_t.MagmaLower 0 dA ldda).ret = 0 ∧
      (magma_zpotrf_native_gpu ar env hybrid magma_uplo_t.MagmaLower 0 dA ldda).dA = dA ∧
      (magma_zpotrf_native_gpu ar env hybrid magma_uplo_t.MagmaLower 0 dA ldda).trace.filter
          Op.on_queue =
        [Op.setvector 0, Op.getvector 0, Op.queue_sync 0, Op.queue_sync 1] := by
  rw [native_gpu_run ar env hybrid 0 ldda dA (by omega) (by omega) ha hb]
  refine ⟨rfl, rfl, ?_⟩
  simp [block_loop, loop_entry, cleanup_ops, Op.on_queue, Op.queue]

/-- Witness of C6 in the host-assisted variant with `ldda = 1`. -/
theorem C6_order_zero_queue_ops_witness :
    (magma_zpotrf_native_gpu ratArith envOk 1 magma_uplo_t.MagmaLower 0 (bufOfList []) 1).ret
        = 0 ∧
      (magma_zpotrf_native_gpu ratArith envOk 1 magma_uplo_t.MagmaLower 0 (bufOfList []) 1).dA
        = bufOfList [] ∧
      (magma_zpotrf_native_gpu ratArith envOk 1 magma_uplo_t.MagmaLower 0 (bufOfList [])
          1).trace.filter Op.on_queue =
        [Op.setvector 0, Op.getvector 0, Op.queue_sync 0, Op.queue_sync 1] :=
  C6_order_zero_queue_ops ratArith envOk 1 1 (bufOfList []) (by decide) rfl rfl

/-- C6 fails as stated: for `n = 0` the trace of queue operations is not
empty. -/
theorem C6_queue_trace_not_empty :
    (magma_zpotrf_native_gpu ratArith envOk 0 magma_uplo_t.MagmaLower 0 (bufOfList [])
      1).trace.filter Op.on_queue ≠ [] := by
  decide

theorem panel_ops_fetch (hybrid : Int) (k jb : Nat) :
    ∀ op ∈ panel_ops hybrid k jb,
      (∀ q, op ≠ Op.getvector q) ∧ op ≠ Op.queue_sync 1 ∧
        (op.writes_status = true → op.queue = some 0) := by
  intro op hop
  unfold panel_ops at hop
  by_cases h : hybrid = 1
  · simp only [h, if_true, List.mem_cons, List.mem_singleton, List.not_mem_nil, or_false] at hop
    rcases hop with rfl | rfl | rfl | rfl <;> simp [Op.writes_status, Op.queue]
  · simp only [h, if_false, List.mem_singleton] at hop
    subst hop
    simp [Op.writes_status, Op.queue]

theorem trailing_ops_fetch (n nb k jb : Nat) :
    ∀ op ∈ trailing_ops n nb k jb,
      (∀ q, op ≠ Op.getvector q) ∧ op ≠ Op.queue_sync 1 ∧
        (op.writes_status = true → op.queue = some 0) := by
  intro op hop
  unfold trailing_ops at hop
  by_cases h1 : k + jb < n
  · by_cases h2 : k + jb + min nb (n - (k + jb)) < n
    · simp only [h1, h2, if_true, List.mem_append, List.mem_cons, List.mem_singleton,
        List.not_mem_nil, or_false] at hop
      rcases hop with (rfl | rfl | rfl) | (rfl | rfl | rfl) <;> simp [Op.writes_status, Op.queue]
    · simp only [h1, h2, if_true, if_false, List.mem_append, List.mem_cons, List.mem_singleton,
        List.not_mem_nil, or_false] at hop
      rcases hop with rfl | rfl | rfl <;> simp [Op.writes_status, Op.queue]
  · simp [h1] at hop

/-- C10, as the code has it. In every call that gets past allocation the
status fetch is issued once, on queue 0, after the block loop and before the
two queue synchronizations, which are the next two operations. Nothing before
the fetch is a fetch or synchronizes queue 1, and every operation before it
that writes the status cell is on queue 0, the queue of the fetch. -/
theorem C10_fetch_before_queue_syncs (ar : Arith K) (env : Env) (hybrid : Int) (n ldda : Int)
    (dA : Nat → K) (hn : 0 ≤ n) (hld : max 1 n ≤ ldda) (ha : env.host_alloc_ok = true)
    (hb : env.dev_alloc_ok = true) :
    ∃ pre post,
      (magma_zpotrf_native_gpu ar env hybrid magma_uplo_t.MagmaLower n dA ldda).trace =
        pre ++ Op.getvector 0 :: Op.queue_sync 0 :: Op.queue_sync 1 :: post ∧
      (∀ op ∈ pre, (∀ q, op ≠ Op.getvector q) ∧ op ≠ Op.queue_sync 1 ∧
        (op.writes_status = true → op.queue = some 0)) ∧
      ∀ op ∈ post, op.queue = none := by
  rw [native_gpu_run ar env hybrid n ldda dA hn hld ha hb]
  refine ⟨_, [Op.event_destroy, Op.queue_destroy 0, Op.queue_destroy 1, Op.free_pinned,
    Op.free], rfl, ?_, ?_⟩
  · apply block_loop_trace_forall
    · intro op hop
      simp only [loop_entry, List.mem_cons, List.mem_singleton, List.not_mem_nil, or_false] at hop
      rcases hop with rfl | rfl | rfl | rfl | rfl | rfl | rfl <;>
        simp [Op.writes_status, Op.queue]
    · exact panel_ops_fetch hybrid
    · exact trailing_ops_fetch n.toNat 1024
  · intro op hop
    simp only [List.mem_cons, List.mem_singleton, List.not_mem_nil, or_false] at hop
    rcases hop with rfl | rfl | rfl | rfl | rfl <;> rfl

/-- Witness of C10: `n = 2049`, `ldda = 2049`, device-native variant. -/
theorem C10_fetch_before_queue_syncs_witness :
    ∃ pre post,
      (magma_zpotrf_native_gpu ratArith envOk 0 magma_uplo_t.MagmaLower 2049 negCorner
          2049).trace =
        pre ++ Op.getvector 0 :: Op.queue_sync 0 :: Op.queue_sync 1 :: post ∧
      (∀ op ∈ pre, (∀ q, op ≠ Op.getvector q) ∧ op ≠ Op.queue_sync 1 ∧
        (op.writes_status = true → op.queue = some 0)) ∧
      ∀ op ∈ post, op.queue = none :=
  C10_fetch_before_queue_syncs ratArith envOk 0 2049 2049 negCorner (by decide) (by decide)
    rfl rfl

/-- C10 fails as stated: `n = 2049`, device-native variant. The far update of
the first panel is issued on queue 1, and the status fetch follows with no
synchronization of either queue before it. -/
theorem C10_fetch_not_after_sync :
    (magma_zpotrf_native_gpu ratArith envOk 0 magma_uplo_t.MagmaLower 2049 negCorner
        2049).trace =
      [Op.zmalloc_pinned (1024 * 1024) true, Op.imalloc true, Op.getdevice,
       Op.queue_create 0, Op.queue_create 1, Op.event_create, Op.setvector 0,
       Op.zpotrf_rectile_native ⟨0, 0, 1024, 1024⟩ 0 0,
       Op.ztrsm ⟨0, 0, 1024, 1024⟩ ⟨1024, 0, 1025, 1024⟩ 0, Op.event_record 0,
       Op.zherk ⟨1024, 0, 1024, 1024⟩ ⟨1024, 1024, 1024, 1024⟩ 0,
       Op.queue_wait_event 1,
       Op.zgemm ⟨2048, 0, 1, 1024⟩ ⟨1024, 0, 1024, 1024⟩ ⟨2048, 1024, 1, 1024⟩ 1,
       Op.zherk ⟨2048, 0, 1, 1024⟩ ⟨2048, 2048, 1, 1⟩ 1,
       Op.zpotrf_rectile_native ⟨1024, 1024, 1024, 1024⟩ 1024 0,
       Op.ztrsm ⟨1024, 1024, 1024, 1024⟩ ⟨2048, 1024, 1, 1024⟩ 0, Op.event_record 0,
       Op.zherk ⟨2048, 1024, 1, 1024⟩ ⟨2048, 2048, 1, 1⟩ 0,
       Op.zpotrf_rectile_native ⟨2048, 2048, 1, 1⟩ 2048 0,
       Op.getvector 0, Op.queue_sync 0, Op.queue_sync 1, Op.event_destroy,
       Op.queue_destroy 0, Op.queue_destroy 1, Op.free_pinned, Op.free] ∧
    ¬ fetch_after_sync
      (magma_zpotrf_native_gpu ratArith envOk 0 magma_uplo_t.MagmaLower 2049 negCorner
        2049).trace := by
  have htr : (magma_zpotrf_native_gpu ratArith envOk 0 magma_uplo_t.MagmaLower 2049 negCorner
        2049).trace =
      [Op.zmalloc_pinned (1024 * 1024) true, Op.imalloc true, Op.getdevice,
       Op.queue_create 0, Op.queue_create 1, Op.event_create, Op.setvector 0,
       Op.zpotrf_rectile_native ⟨0, 0, 1024, 1024⟩ 0 0,
       Op.ztrsm ⟨0, 0, 1024, 1024⟩ ⟨1024, 0, 1025, 1024⟩ 0, Op.event_record 0,
       Op.zherk ⟨1024, 0, 1024, 1024⟩ ⟨1024, 1024, 1024, 1024⟩ 0,
       Op.queue_wait_event 1,
       Op.zgemm ⟨2048, 0, 1, 1024⟩ ⟨1024, 0, 1024, 1024⟩ ⟨2048, 1024, 1, 1024⟩ 1,
       Op.zherk ⟨2048, 0, 1, 1024⟩ ⟨2048, 2048, 1, 1⟩ 1,
       Op.zpotrf_rectile_native ⟨1024, 1024, 1024, 1024⟩ 1024 0,
       Op.ztrsm ⟨1024, 1024, 1024, 1024⟩ ⟨2048, 1024, 1, 1024⟩ 0, Op.event_record 0,
       Op.zherk ⟨2048, 1024, 1, 1024⟩ ⟨2048, 2048, 1, 1⟩ 0,
       Op.zpotrf_rectile_native ⟨2048, 2048, 1, 1⟩ 2048 0] ++
      Op.getvector 0 ::
      [Op.queue_sync 0, Op.queue_sync 1, Op.event_destroy,
       Op.queue_destroy 0, Op.queue_destroy 1, Op.free_pinned, Op.free] := by
    decide
  refine ⟨htr, fun h => ?_⟩
  have h1 := (h _ _ _ htr).2
  exact absurd h1 (by decide)

end Status

/-! ## The content of `work[0]` when `magma_zgeqrf` returns -/

section Geqrf

variable {W : Type}

/-- A workspace query whose `n*nb` leaves the range of `magma_int_t`: for
`m = n = 2^26` and block size 32 the product `2^31` wraps around and
`work[0]` receives `2*nb*nb = 2048`. -/
theorem zgeqrf_query_wraps :
    magma_zgeqrf geqrfEnv32 67108864 67108864 67108864 (-1) = ⟨0, 2048⟩ ∧
    max ((67108864 : Int) * 32) (2 * 32 * 32) = 2147483648 := by
  refine ⟨by decide, by decide⟩

end Geqrf

/-! ## Reference kernels in exact arithmetic -/

section ExactKernels

end ExactKernels

/-! ## The loop invariant of the factorization -/

section Invariant

end Invariant

/-! ## Correctness of the factorization -/

section Correctness

open Matrix
open scoped ComplexOrder

/-- The scenario of the specification on rationals: the identity of order 3
is returned unchanged with status 0, in both variants. -/
theorem identity_order_three_rat :
    (magma_zpotrf_native_gpu ratArith envOk 1 magma_uplo_t.MagmaLower 3 (idBuf 3 3) 3).ret = 0 ∧
      (List.range 9).map
          (magma_zpotrf_native_gpu ratArith envOk 1 magma_uplo_t.MagmaLower 3 (idBuf 3 3) 3).dA =
        [1, 0, 0, 0, 1, 0, 0, 0, 1] ∧
      (magma_zpotrf_native_gpu ratArith envOk 0 magma_uplo_t.MagmaLower 3 (idBuf 3 3) 3).ret = 0 ∧
      (List.range 9).map
          (magma_zpotrf_native_gpu ratArith envOk 0 magma_uplo_t.MagmaLower 3 (idBuf 3 3) 3).dA =
        [1, 0, 0, 0, 1, 0, 0, 0, 1] := by
  refine ⟨?_, ?_, ?_, ?_⟩ <;> decide!

end Correctness

/-! ## The three updates of one iteration -/

section TrailingSplit

variable {K : Type} [Field K]

/-- Over the complex numbers, on a real diagonal entry the corrected entry is
`A(r,c) - sum_k A(r, j+k) * conj(A(c, j+k))` on the diagonal as well. -/
theorem rank_update_entry_hermitian (ldda j jb : Nat) (buf : Nat → ℂ) (r c : Nat)
    (hd : (buf (dAoff ldda r r)).im = 0) (hc : c ≤ r) :
    rank_update_entry complexArith ldda j jb buf r c =
      buf (dAoff ldda r c) - panel_dot complexArith ldda j jb buf r c := by
  unfold rank_update_entry
  by_cases hlt : c < r
  · rw [if_pos hlt]
  · have : c = r := by omega
    subst this
    rw [if_neg hlt]
    have e1 : complexArith.re (buf (dAoff ldda c c)) = buf (dAoff ldda c c) := by
      apply Complex.ext <;> simp [complexArith, hd]
    have e2 : complexArith.re (panel_dot complexArith ldda j jb buf c c) =
        panel_dot complexArith ldda j jb buf c c := by
      unfold panel_dot
      apply Complex.ext
      · simp [complexArith]
      · simp [complexArith, Complex.mul_conj]
    rw [e1, e2]

end TrailingSplit

/-! ## Ordering between the two queues -/

section Ordering

/-- A step of the order goes forward in the trace and stays inside it. -/
theorem hb_edge_lt (tr : List Op) (i k : Nat) (h : hb_edge tr i k = true) :
    i < k ∧ k < tr.length := by
  unfold hb_edge at h
  split at h
  · rename_i a b ha hb
    simp only [Bool.and_eq_true, decide_eq_true_eq] at h
    refine ⟨h.1, ?_⟩
    by_contra hk
    rw [List.getElem?_eq_none (by omega)] at hb
    exact absurd hb (by simp)
  · exact absurd h (by simp)

/-- A set of positions closed under the steps of the order contains
everything that happens after one of its members. -/
theorem not_happens_before_of_closed (tr : List Op) (S : Nat → Prop) (i k : Nat)
    (hS : ∀ a b, S a → hb_edge tr a b = true → S b) (hi : S i) (hk : ¬ S k) :
    ¬ happens_before tr i k := by
  intro h
  refine hk ?_
  clear hk
  unfold happens_before at h
  induction h with
  | single hab => exact hS _ _ hi hab
  | tail _ hbc ih => exact hS _ _ ih hbc

/-- The operations of the device-native variant for `n = 2049`: three panels,
of which the first has a far update. -/
theorem native_trace_2049 :
    (magma_zpotrf_native_gpu ratArith envOk 0 magma_uplo_t.MagmaLower 2049
        (idBuf 2049 2049) 2049).trace =
      [Op.zmalloc_pinned (1024 * 1024) true, Op.imalloc true, Op.getdevice,
       Op.queue_create 0, Op.queue_create 1, Op.event_create, Op.setvector 0,
       Op.zpotrf_rectile_native ⟨0, 0, 1024, 1024⟩ 0 0,
       Op.ztrsm ⟨0, 0, 1024, 1024⟩ ⟨1024, 0, 1025, 1024⟩ 0, Op.event_record 0,
       Op.zherk ⟨1024, 0, 1024, 1024⟩ ⟨1024, 1024, 1024, 1024⟩ 0,
       Op.queue_wait_event 1,
       Op.zgemm ⟨2048, 0, 1, 1024⟩ ⟨1024, 0, 1024, 1024⟩ ⟨2048, 1024, 1, 1024⟩ 1,
       Op.zherk ⟨2048, 0, 1, 1024⟩ ⟨2048, 2048, 1, 1⟩ 1,
       Op.zpotrf_rectile_native ⟨1024, 1024, 1024, 1024⟩ 1024 0,
       Op.ztrsm ⟨1024, 1024, 1024, 1024⟩ ⟨2048, 1024, 1, 1024⟩ 0, Op.event_record 0,
       Op.zherk ⟨2048, 1024, 1, 1024⟩ ⟨2048, 2048, 1, 1⟩ 0,
       Op.zpotrf_rectile_native ⟨2048, 2048, 1, 1⟩ 2048 0,
       Op.getvector 0, Op.queue_sync 0, Op.queue_sync 1, Op.event_destroy,
       Op.queue_destroy 0, Op.queue_destroy 1, Op.free_pinned, Op.free] := by
  decide

/-- C12 fails: `n = 2049`, device-native variant, identity matrix. The multiply
of the far update of the first panel (position 12, queue 1) and the triangular
solve of the second panel (position 15, queue 0) both write entry
`(2048, 1024)`; the far rank-k update of the first panel (position 13, queue 1)
and the near rank-k update of the second panel (position 17, queue 0) both
write entry `(2048, 2048)`. Neither pair is ordered by happens-before: the
only edge between the queues goes from the event record on queue 0 to the wait
on queue 1, and nothing waits for queue 1 before the final synchronization. So
the trace is not race free. -/
theorem C12_far_update_unordered_with_next_panel :
    (magma_zpotrf_native_gpu ratArith envOk 0 magma_uplo_t.MagmaLower 2049
        (idBuf 2049 2049) 2049).trace[12]? =
      some (Op.zgemm ⟨2048, 0, 1, 1024⟩ ⟨1024, 0, 1024, 1024⟩ ⟨2048, 1024, 1, 1024⟩ 1) ∧
    (magma_zpotrf_native_gpu ratArith envOk 0 magma_uplo_t.MagmaLower 2049
        (idBuf 2049 2049) 2049).trace[15]? =
      some (Op.ztrsm ⟨1024, 1024, 1024, 1024⟩ ⟨2048, 1024, 1, 1024⟩ 0) ∧
    (Op.zgemm ⟨2048, 0, 1, 1024⟩ ⟨1024, 0, 1024, 1024⟩ ⟨2048, 1024, 1, 1024⟩ 1).writes
      2048 1024 ∧
    (Op.ztrsm ⟨1024, 1024, 1024, 1024⟩ ⟨2048, 1024, 1, 1024⟩ 0).writes 2048 1024 ∧
    ¬ happens_before
      (magma_zpotrf_native_gpu ratArith envOk 0 magma_uplo_t.MagmaLower 2049
        (idBuf 2049 2049) 2049).trace 12 15 ∧
    (magma_zpotrf_native_gpu ratArith envOk 0 magma_uplo_t.MagmaLower 2049
        (idBuf 2049 2049) 2049).trace[13]? =
      some (Op.zherk ⟨2048, 0, 1, 1024⟩ ⟨2048, 2048, 1, 1⟩ 1) ∧
    (magma_zpotrf_native_gpu ratArith envOk 0 magma_uplo_t.MagmaLower 2049
        (idBuf 2049 2049) 2049).trace[17]? =
      some (Op.zherk ⟨2048, 1024, 1, 1024⟩ ⟨2048, 2048, 1, 1⟩ 0) ∧
    (Op.zherk ⟨2048, 0, 1, 1024⟩ ⟨2048, 2048, 1, 1⟩ 1).writes 2048 2048 ∧
    (Op.zherk ⟨2048, 1024, 1, 1024⟩ ⟨2048, 2048, 1, 1⟩ 0).writes 2048 2048 ∧
    ¬ happens_before
      (magma_zpotrf_native_gpu ratArith envOk 0 magma_uplo_t.MagmaLower 2049
        (idBuf 2049 2049) 2049).trace 13 17 ∧
    ¬ race_free
      (magma_zpotrf_native_gpu ratArith envOk 0 magma_uplo_t.MagmaLower 2049
        (idBuf 2049 2049) 2049).trace := by
  rw [native_trace_2049]
  have hcl : ∀ a b, (a = 12 ∨ a = 13 ∨ 21 ≤ a) →
      hb_edge
        [Op.zmalloc_pinned (1024 * 1024) true, Op.imalloc true, Op.getdevice,
         Op.queue_create 0, Op.queue_create 1, Op.event_create, Op.setvector 0,
         Op.zpotrf_rectile_native ⟨0, 0, 1024, 1024⟩ 0 0,
         Op.ztrsm ⟨0, 0, 1024, 1024⟩ ⟨1024, 0, 1025, 1024⟩ 0, Op.event_record 0,
         Op.zherk ⟨1024, 0, 1024, 1024⟩ ⟨1024, 1024, 1024, 1024⟩ 0,
         Op.queue_wait_event 1,
         Op.zgemm ⟨2048, 0, 1, 1024⟩ ⟨1024, 0, 1024, 1024⟩ ⟨2048, 1024, 1, 1024⟩ 1,
         Op.zherk ⟨2048, 0, 1, 1024⟩ ⟨2048, 2048, 1, 1⟩ 1,
         Op.zpotrf_rectile_native ⟨1024, 1024, 1024, 1024⟩ 1024 0,
         Op.ztrsm ⟨1024, 1024, 1024, 1024⟩ ⟨2048, 1024, 1, 1024⟩ 0, Op.event_record 0,
         Op.zherk ⟨2048, 1024, 1, 1024⟩ ⟨2048, 2048, 1, 1⟩ 0,
         Op.zpotrf_rectile_native ⟨2048, 2048, 1, 1⟩ 2048 0,
         Op.getvector 0, Op.queue_sync 0, Op.queue_sync 1, Op.event_destroy,
         Op.queue_destroy 0, Op.queue_destroy 1, Op.free_pinned, Op.free] a b = true →
      (b = 12 ∨ b = 13 ∨ 21 ≤ b) := by
    intro a b ha hab
    have hlt := hb_edge_lt _ a b hab
    have hb : b < 27 := hlt.2
    rcases ha with rfl | rfl | ha
    · revert hab
      revert b
      decide
    · revert hab
      revert b
      decide
    · omega
  have h1 := not_happens_before_of_closed _ (fun a => a = 12 ∨ a = 13 ∨ 21 ≤ a) 12 15 hcl
    (by decide) (by decide)
  have h2 := not_happens_before_of_closed _ (fun a => a = 12 ∨ a = 13 ∨ 21 ≤ a) 13 17 hcl
    (by decide) (by decide)
  refine ⟨rfl, rfl, by decide, by decide, h1, rfl, rfl, by decide, by decide, h2, ?_⟩
  intro h
  exact h1 (h 12 15 _ _ 1 0 (by decide) rfl rfl rfl rfl (by decide)
    ⟨2048, 1024, Or.inl ⟨by decide, by decide⟩⟩)

end Ordering

end Magma
